import Mathlib

set_option maxRecDepth 20000

/-!
Shallow embedding of libmbim's `mbim-message.c` (message construction, the
fragment split codec and the fragment collector) together with proofs about it.

A `MbimMessage` is backed by a `GByteArray`; we model the backing buffer as a
`List Nat`, one entry per byte.  All multi-byte header fields are stored
little-endian on the wire; `guint32` arithmetic is modelled with explicit
`% 2^32` where the C code computes in 32-bit unsigned integers.

Struct layouts (`struct header`, `struct fragment_header`, `struct
open_message`) live in `mbim-message-private.h`, which is not part of the
sources here; their byte offsets are modelled from the spec's wire-format
section: `type`/`length`/`transaction_id` at offsets 0/4/8, the fragment
header `total`/`current` at offsets 12/16, payload from offset 20.
-/

namespace Mbim

/-- Modulus of 32-bit unsigned (`guint32`) arithmetic. -/
def U32 : Nat := 4294967296

/-- A message buffer: the `GByteArray` backing a `MbimMessage`, one `Nat` per byte. -/
abbrev Msg := List Nat

/-- Read one byte of the buffer.  Bytes are 8-bit (`guint8`), hence the `% 256`;
an out-of-range read returns 0 (the C code never reads out of range in the
situations our theorems quantify over, which carry length hypotheses). -/
def byteAt (m : Msg) (i : Nat) : Nat := m.getD i 0 % 256

/-- The little-endian byte encoding of a `guint32` value, i.e. what storing
`GUINT32_TO_LE v` leaves in memory (regardless of host byte order). -/
def e32 (v : Nat) : List Nat :=
  [v % 256, v / 256 % 256, v / 65536 % 256, v / 16777216 % 256]

/-- `GUINT32_FROM_LE` load of the four bytes at offset `off`. -/
def readLE32 (m : Msg) (off : Nat) : Nat :=
  byteAt m off + 256 * byteAt m (off + 1) + 65536 * byteAt m (off + 2) +
    16777216 * byteAt m (off + 3)

/-- Store `GUINT32_TO_LE v` at offset `off` (writes the four LE bytes). -/
def writeLE32 (m : Msg) (off v : Nat) : Msg :=
  (((m.set off (v % 256)).set (off + 1) (v / 256 % 256)).set
      (off + 2) (v / 65536 % 256)).set (off + 3) (v / 16777216 % 256)

/-- 32-bit unsigned subtraction `a - b`, wrapping modulo `2^32`. -/
def usub (a b : Nat) : Nat := (a + (U32 - b % U32)) % U32

/-- Raw 4-byte copy from `src` at `soff` into `dst` at `doff` (the collector's
endian-neutral `fragment_header.current` assignment). -/
def copyBytes4 (dst : Msg) (doff : Nat) (src : Msg) (soff : Nat) : Msg :=
  (((dst.set doff (byteAt src soff)).set (doff + 1) (byteAt src (soff + 1))).set
      (doff + 2) (byteAt src (soff + 2))).set (doff + 3) (byteAt src (soff + 3))

/-- Modelled from the spec: `sizeof (struct header)` — 12 bytes
(`type`, `length`, `transaction_id`, each a `u32`), per the wire format. -/
def headerSize : Nat := 12

/-- Modelled from the spec: `sizeof (struct fragment_header)` — 8 bytes
(`total`, `current`, each a `u32`), at offsets 12..20 of a fragmented message. -/
def fragmentHeaderSize : Nat := 8

/-- Modelled from the spec: `sizeof (struct open_message)` — one `u32`
(`max_control_transfer`). -/
def openMessageSize : Nat := 4

/-- `MBIM_MESSAGE_TYPE_OPEN` -/
def MBIM_MESSAGE_TYPE_OPEN : Nat := 1
/-- `MBIM_MESSAGE_TYPE_CLOSE` -/
def MBIM_MESSAGE_TYPE_CLOSE : Nat := 2
/-- `MBIM_MESSAGE_TYPE_COMMAND` -/
def MBIM_MESSAGE_TYPE_COMMAND : Nat := 3
/-- `MBIM_MESSAGE_TYPE_HOST_ERROR` -/
def MBIM_MESSAGE_TYPE_HOST_ERROR : Nat := 4
/-- `MBIM_MESSAGE_TYPE_COMMAND_DONE` (0x80000003) -/
def MBIM_MESSAGE_TYPE_COMMAND_DONE : Nat := 0x80000003
/-- `MBIM_MESSAGE_TYPE_INDICATION` (0x80000007) -/
def MBIM_MESSAGE_TYPE_INDICATION : Nat := 0x80000007

/-- `MBIM_MESSAGE_GET_MESSAGE_TYPE`: the `type` field at offset 0. -/
def mbim_message_get_message_type (m : Msg) : Nat := readLE32 m 0

/-- `MBIM_MESSAGE_GET_MESSAGE_LENGTH`: the `length` field at offset 4. -/
def mbim_message_get_message_length (m : Msg) : Nat := readLE32 m 4

/-- `MBIM_MESSAGE_GET_TRANSACTION_ID`: the `transaction_id` field at offset 8. -/
def mbim_message_get_transaction_id (m : Msg) : Nat := readLE32 m 8

/-- `MBIM_MESSAGE_IS_FRAGMENT`: COMMAND, COMMAND_DONE or INDICATION. -/
def _mbim_message_is_fragment (m : Msg) : Bool :=
  mbim_message_get_message_type m == MBIM_MESSAGE_TYPE_COMMAND ||
  mbim_message_get_message_type m == MBIM_MESSAGE_TYPE_COMMAND_DONE ||
  mbim_message_get_message_type m == MBIM_MESSAGE_TYPE_INDICATION

/-- `MBIM_MESSAGE_FRAGMENT_GET_TOTAL`: `fragment_header.total` at offset 12. -/
def _mbim_message_fragment_get_total (m : Msg) : Nat := readLE32 m 12

/-- `MBIM_MESSAGE_FRAGMENT_GET_CURRENT`: `fragment_header.current` at offset 16. -/
def _mbim_message_fragment_get_current (m : Msg) : Nat := readLE32 m 16

/-- The length out-parameter of `_mbim_message_fragment_get_payload`:
`message_length - sizeof header - sizeof fragment_header` in `guint32`
arithmetic. -/
def fragmentPayloadLen (m : Msg) : Nat :=
  usub (usub (mbim_message_get_message_length m) headerSize) fragmentHeaderSize

/-- The payload bytes read through `_mbim_message_fragment_get_payload`'s
returned pointer: `fragmentPayloadLen` bytes starting at offset 20. -/
def fragmentPayload (m : Msg) : Msg :=
  (m.drop (headerSize + fragmentHeaderSize)).take (fragmentPayloadLen m)

/-- `_mbim_message_allocate`: a zeroed buffer of `sizeof header + additional_size`
bytes with `type`, `length` and `transaction_id` set (all LE). -/
def _mbim_message_allocate (message_type transaction_id additional_size : Nat) : Msg :=
  let len := (headerSize + additional_size) % U32
  writeLE32 (writeLE32 (writeLE32 (List.replicate len 0) 0 message_type) 4 len)
    8 transaction_id

/-- `mbim_message_new`: copy `data_length` bytes of `data` into a fresh buffer. -/
def mbim_message_new (data : Msg) (data_length : Nat) : Msg := data.take data_length

/-- `mbim_message_dup`: `mbim_message_new` on the buffer, taking exactly
`MBIM_MESSAGE_GET_MESSAGE_LENGTH` bytes (the header's length field). -/
def mbim_message_dup (m : Msg) : Msg :=
  mbim_message_new m (mbim_message_get_message_length m)

/-- `mbim_message_get_raw`: fails with "Message is empty" when the buffer holds
no bytes; otherwise returns the whole buffer and its byte count. -/
def mbim_message_get_raw (m : Msg) : Except String (Msg × Nat) :=
  if m.length = 0 then .error "Message is empty"
  else .ok (m, m.length)

/-- `mbim_message_open_new`: allocate 12 + 4 bytes as OPEN and store
`max_control_transfer` (LE) at offset 12. -/
def mbim_message_open_new (transaction_id max_control_transfer : Nat) : Msg :=
  writeLE32 (_mbim_message_allocate MBIM_MESSAGE_TYPE_OPEN transaction_id openMessageSize)
    headerSize max_control_transfer

/-- `mbim_message_close_new`: allocate a bare 12-byte CLOSE header. -/
def mbim_message_close_new (transaction_id : Nat) : Msg :=
  _mbim_message_allocate MBIM_MESSAGE_TYPE_CLOSE transaction_id 0

/-- `mbim_message_error_new`: allocate 12 + `sizeof (struct open_message)` bytes
as HOST_ERROR and store `error_status_code` (LE) at offset 12. -/
def mbim_message_error_new (transaction_id error_status_code : Nat) : Msg :=
  writeLE32 (_mbim_message_allocate MBIM_MESSAGE_TYPE_HOST_ERROR transaction_id openMessageSize)
    headerSize error_status_code

/-- The diagnostic payload of a `MBIM_PROTOCOL_ERROR_FRAGMENT_OUT_OF_SEQUENCE`
error: "Expecting fragment 'expected_current/expected_total', got
'got_current/got_total'". -/
structure FragSeqError where
  expected_current : Nat
  expected_total : Nat
  got_current : Nat
  got_total : Nat
deriving DecidableEq, Repr

/-- `_mbim_message_fragment_collector_init`: reject a first fragment whose
`current` is nonzero, otherwise return a deep copy of it. -/
def _mbim_message_fragment_collector_init (fragment : Msg) :
    Except FragSeqError Msg :=
  if _mbim_message_fragment_get_current fragment ≠ 0 then
    .error ⟨0, _mbim_message_fragment_get_total fragment,
            _mbim_message_fragment_get_current fragment,
            _mbim_message_fragment_get_total fragment⟩
  else
    .ok (mbim_message_dup fragment)

/-- `_mbim_message_fragment_collector_add`: the collector message is updated in
place; we return the (possible) error together with the resulting buffer (the
input buffer itself on the error path, which returns before any mutation). -/
def _mbim_message_fragment_collector_add (self fragment : Msg) :
    Option FragSeqError × Msg :=
  if _mbim_message_fragment_get_current self ≠
      usub (_mbim_message_fragment_get_current fragment) 1 then
    (some ⟨(_mbim_message_fragment_get_current self + 1) % U32,
           _mbim_message_fragment_get_total self,
           _mbim_message_fragment_get_current fragment,
           _mbim_message_fragment_get_total fragment⟩, self)
  else
    let buffer_len := fragmentPayloadLen fragment
    let buffer := fragmentPayload fragment
    let grown :=
      if buffer_len ≠ 0 then
        let appended := self ++ buffer
        writeLE32 appended 4 (mbim_message_get_message_length appended + buffer_len)
      else self
    (none, copyBytes4 grown 16 fragment 16)

/-- `_mbim_message_fragment_collector_complete`: when `current = total - 1`
(in `guint32` arithmetic) reset `current` to 0 and `total` to 1 and report
completion; otherwise leave the message untouched. -/
def _mbim_message_fragment_collector_complete (self : Msg) : Bool × Msg :=
  if _mbim_message_fragment_get_current self ≠
      usub (_mbim_message_fragment_get_total self) 1 then
    (false, self)
  else
    (true, writeLE32 (writeLE32 self 16 0) 12 1)

/-- `struct fragment_info`: MBIM header fields, fragment header fields, and the
payload slice (as the offset into the source's fragment-payload region that the
`data` pointer denotes, plus `data_length`).  Field values are the logical
`guint32` values; LE encoding happens when a descriptor is serialized. -/
structure FragmentInfo where
  h_type : Nat
  h_length : Nat
  h_transaction_id : Nat
  fh_total : Nat
  fh_current : Nat
  data_offset : Nat
  data_length : Nat
deriving DecidableEq, Repr

/-- The payload slice a `FragmentInfo` points at inside the source message:
`data_length` bytes starting `data_offset` bytes into the fragment-payload
region (offset 20) of `m`. -/
def fragmentSlice (m : Msg) (fi : FragmentInfo) : Msg :=
  (m.drop (headerSize + fragmentHeaderSize + fi.data_offset)).take fi.data_length

/-- The loop of `_mbim_message_split_fragments`: build `fuel` descriptors,
starting at index `i` and offset `off` into the payload region, with
`remaining` payload bytes left to distribute. -/
def splitLoop (ty tid totalf fragPayloadLen : Nat) :
    Nat → Nat → Nat → Nat → List FragmentInfo
  | 0, _, _, _ => []
  | fuel + 1, i, off, remaining =>
    let len := if remaining > fragPayloadLen then fragPayloadLen else remaining
    { h_type := ty
      h_length := (headerSize + fragmentHeaderSize + len) % U32
      h_transaction_id := tid
      fh_total := totalf
      fh_current := i
      data_offset := off
      data_length := len } ::
      splitLoop ty tid totalf fragPayloadLen fuel (i + 1) (off + len) (remaining - len)

/-- `_mbim_message_split_fragments`: `none` when the whole message fits in one
fragment, otherwise the list of fragment descriptors. -/
def _mbim_message_split_fragments (m : Msg) (max_fragment_size : Nat) :
    Option (List FragmentInfo) :=
  let total_message_length := mbim_message_get_message_length m
  if total_message_length ≤ max_fragment_size then none
  else
    let fragment_header_length := headerSize + fragmentHeaderSize
    let total_payload_length := usub total_message_length fragment_header_length
    let fragment_payload_length := usub max_fragment_size fragment_header_length
    let total_fragments :=
      (total_payload_length / fragment_payload_length +
        (if total_payload_length % fragment_payload_length ≠ 0 then 1 else 0)) % U32
    some (splitLoop (mbim_message_get_message_type m)
            (mbim_message_get_transaction_id m)
            total_fragments fragment_payload_length
            total_fragments 0 0 total_payload_length)

/-- Modelled from the spec: the wire serialization of a fragment descriptor (the
transport layer, outside these sources, writes the 12-byte header, the 8-byte
fragment header and then the payload slice, all fields LE). -/
def fragmentInfoToMsg (m : Msg) (fi : FragmentInfo) : Msg :=
  e32 fi.h_type ++ e32 fi.h_length ++ e32 fi.h_transaction_id ++
    e32 fi.fh_total ++ e32 fi.fh_current ++ fragmentSlice m fi

/-- Feed a list of fragments to the collector in order, stopping at the first
rejected fragment. -/
def addAll : Msg → List Msg → Option FragSeqError × Msg
  | c, [] => (none, c)
  | c, f :: fs =>
    match _mbim_message_fragment_collector_add c f with
    | (some e, c2) => (some e, c2)
    | (none, c2) => addAll c2 fs

/-- A fragmented-type message laid out as its five LE header words followed by
the payload: `type`, `length`, `transaction_id`, `total`, `current`, payload. -/
def hdrMsg (t l x tot cur : Nat) (p : Msg) : Msg :=
  e32 t ++ e32 l ++ e32 x ++ e32 tot ++ e32 cur ++ p

end Mbim

namespace Mbim

theorem U32_pos : 0 < U32 := by decide

theorem byteAt_lt (m : Msg) (i : Nat) : byteAt m i < 256 :=
  Nat.mod_lt _ (by decide)

theorem readLE32_lt (m : Msg) (off : Nat) : readLE32 m off < U32 := by
  have h0 := byteAt_lt m off
  have h1 := byteAt_lt m (off + 1)
  have h2 := byteAt_lt m (off + 2)
  have h3 := byteAt_lt m (off + 3)
  unfold readLE32 U32
  omega

theorem getD_set_eq (l : List Nat) (i v : Nat) (h : i < l.length) :
    (l.set i v).getD i 0 = v := by
  rw [List.getD_eq_getElem?_getD, List.getElem?_set_self']
  simp [List.getElem?_eq_getElem h]

theorem getD_set_ne (l : List Nat) (i j v : Nat) (h : i ≠ j) :
    (l.set i v).getD j 0 = l.getD j 0 := by
  rw [List.getD_eq_getElem?_getD, List.getD_eq_getElem?_getD, List.getElem?_set_ne h]

theorem byteAt_set_ne (l : List Nat) (i j v : Nat) (h : i ≠ j) :
    byteAt (l.set i v) j = byteAt l j := by
  unfold byteAt; rw [getD_set_ne _ _ _ _ h]

theorem length_writeLE32 (m : Msg) (off v : Nat) :
    (writeLE32 m off v).length = m.length := by
  unfold writeLE32; simp

theorem length_copyBytes4 (dst : Msg) (doff : Nat) (src : Msg) (soff : Nat) :
    (copyBytes4 dst doff src soff).length = dst.length := by
  unfold copyBytes4; simp

theorem byteAt_writeLE32_b0 (m : Msg) (off v : Nat) (h : off + 4 ≤ m.length) :
    byteAt (writeLE32 m off v) off = v % 256 := by
  unfold writeLE32 byteAt
  rw [getD_set_ne _ _ _ _ (by omega), getD_set_ne _ _ _ _ (by omega),
    getD_set_ne _ _ _ _ (by omega), getD_set_eq _ _ _ (by omega)]
  omega

theorem byteAt_writeLE32_b1 (m : Msg) (off v : Nat) (h : off + 4 ≤ m.length) :
    byteAt (writeLE32 m off v) (off + 1) = v / 256 % 256 := by
  unfold writeLE32 byteAt
  rw [getD_set_ne _ _ _ _ (by omega), getD_set_ne _ _ _ _ (by omega),
    getD_set_eq _ _ _ (by simp; omega)]
  omega

theorem byteAt_writeLE32_b2 (m : Msg) (off v : Nat) (h : off + 4 ≤ m.length) :
    byteAt (writeLE32 m off v) (off + 2) = v / 65536 % 256 := by
  unfold writeLE32 byteAt
  rw [getD_set_ne _ _ _ _ (by omega), getD_set_eq _ _ _ (by simp; omega)]
  omega

theorem byteAt_writeLE32_b3 (m : Msg) (off v : Nat) (h : off + 4 ≤ m.length) :
    byteAt (writeLE32 m off v) (off + 3) = v / 16777216 % 256 := by
  unfold writeLE32 byteAt
  rw [getD_set_eq _ _ _ (by simp; omega)]
  omega

theorem readLE32_writeLE32_eq (m : Msg) (off v : Nat) (h : off + 4 ≤ m.length) :
    readLE32 (writeLE32 m off v) off = v % U32 := by
  unfold readLE32
  rw [byteAt_writeLE32_b0 _ _ _ h, byteAt_writeLE32_b1 _ _ _ h,
    byteAt_writeLE32_b2 _ _ _ h, byteAt_writeLE32_b3 _ _ _ h]
  unfold U32
  omega

theorem readLE32_writeLE32_ne (m : Msg) (off v off2 : Nat)
    (h : off + 4 ≤ off2 ∨ off2 + 4 ≤ off) :
    readLE32 (writeLE32 m off v) off2 = readLE32 m off2 := by
  unfold readLE32 writeLE32
  rw [byteAt_set_ne _ _ _ _ (by omega), byteAt_set_ne _ _ _ _ (by omega),
    byteAt_set_ne _ _ _ _ (by omega), byteAt_set_ne _ _ _ _ (by omega),
    byteAt_set_ne _ _ _ _ (by omega), byteAt_set_ne _ _ _ _ (by omega),
    byteAt_set_ne _ _ _ _ (by omega), byteAt_set_ne _ _ _ _ (by omega),
    byteAt_set_ne _ _ _ _ (by omega), byteAt_set_ne _ _ _ _ (by omega),
    byteAt_set_ne _ _ _ _ (by omega), byteAt_set_ne _ _ _ _ (by omega),
    byteAt_set_ne _ _ _ _ (by omega), byteAt_set_ne _ _ _ _ (by omega),
    byteAt_set_ne _ _ _ _ (by omega), byteAt_set_ne _ _ _ _ (by omega)]

theorem readLE32_copyBytes4_ne (dst : Msg) (doff : Nat) (src : Msg) (soff off2 : Nat)
    (h : doff + 4 ≤ off2 ∨ off2 + 4 ≤ doff) :
    readLE32 (copyBytes4 dst doff src soff) off2 = readLE32 dst off2 := by
  unfold readLE32 copyBytes4
  rw [byteAt_set_ne _ _ _ _ (by omega), byteAt_set_ne _ _ _ _ (by omega),
    byteAt_set_ne _ _ _ _ (by omega), byteAt_set_ne _ _ _ _ (by omega),
    byteAt_set_ne _ _ _ _ (by omega), byteAt_set_ne _ _ _ _ (by omega),
    byteAt_set_ne _ _ _ _ (by omega), byteAt_set_ne _ _ _ _ (by omega),
    byteAt_set_ne _ _ _ _ (by omega), byteAt_set_ne _ _ _ _ (by omega),
    byteAt_set_ne _ _ _ _ (by omega), byteAt_set_ne _ _ _ _ (by omega),
    byteAt_set_ne _ _ _ _ (by omega), byteAt_set_ne _ _ _ _ (by omega),
    byteAt_set_ne _ _ _ _ (by omega), byteAt_set_ne _ _ _ _ (by omega)]

theorem length_hdrMsg (t l x tot cur : Nat) (p : Msg) :
    (hdrMsg t l x tot cur p).length = 20 + p.length := by
  simp [hdrMsg, e32]; omega

theorem type_hdrMsg (t l x tot cur : Nat) (p : Msg) :
    mbim_message_get_message_type (hdrMsg t l x tot cur p) = t % U32 := by
  simp [hdrMsg, e32, mbim_message_get_message_type, readLE32, byteAt, U32]
  omega

theorem len_hdrMsg (t l x tot cur : Nat) (p : Msg) :
    mbim_message_get_message_length (hdrMsg t l x tot cur p) = l % U32 := by
  simp [hdrMsg, e32, mbim_message_get_message_length, readLE32, byteAt, U32]
  omega

theorem tid_hdrMsg (t l x tot cur : Nat) (p : Msg) :
    mbim_message_get_transaction_id (hdrMsg t l x tot cur p) = x % U32 := by
  simp [hdrMsg, e32, mbim_message_get_transaction_id, readLE32, byteAt, U32]
  omega

theorem total_hdrMsg (t l x tot cur : Nat) (p : Msg) :
    _mbim_message_fragment_get_total (hdrMsg t l x tot cur p) = tot % U32 := by
  simp [hdrMsg, e32, _mbim_message_fragment_get_total, readLE32, byteAt, U32]
  omega

theorem current_hdrMsg (t l x tot cur : Nat) (p : Msg) :
    _mbim_message_fragment_get_current (hdrMsg t l x tot cur p) = cur % U32 := by
  simp [hdrMsg, e32, _mbim_message_fragment_get_current, readLE32, byteAt, U32]
  omega

theorem drop20_hdrMsg (t l x tot cur : Nat) (p : Msg) :
    (hdrMsg t l x tot cur p).drop 20 = p := by
  simp [hdrMsg, e32]

theorem writeLE32_hdrMsg_len (t l x tot cur v : Nat) (p : Msg) :
    writeLE32 (hdrMsg t l x tot cur p) 4 v = hdrMsg t v x tot cur p := by
  simp [hdrMsg, e32, writeLE32]

theorem writeLE32_hdrMsg_total (t l x tot cur v : Nat) (p : Msg) :
    writeLE32 (hdrMsg t l x tot cur p) 12 v = hdrMsg t l x v cur p := by
  simp [hdrMsg, e32, writeLE32]

theorem writeLE32_hdrMsg_current (t l x tot cur v : Nat) (p : Msg) :
    writeLE32 (hdrMsg t l x tot cur p) 16 v = hdrMsg t l x tot v p := by
  simp [hdrMsg, e32, writeLE32]

theorem copyBytes4_hdrMsg_current (t l x tot cur t2 l2 x2 tot2 cur2 : Nat) (p q : Msg) :
    copyBytes4 (hdrMsg t l x tot cur p) 16 (hdrMsg t2 l2 x2 tot2 cur2 q) 16 =
      hdrMsg t l x tot cur2 p := by
  simp [hdrMsg, e32, copyBytes4, byteAt]

theorem hdrMsg_append (t l x tot cur : Nat) (p q : Msg) :
    hdrMsg t l x tot cur p ++ q = hdrMsg t l x tot cur (p ++ q) := by
  simp [hdrMsg]

theorem dup_hdrMsg (t l x tot cur : Nat) (p : Msg) (h : l % U32 = 20 + p.length) :
    mbim_message_dup (hdrMsg t l x tot cur p) = hdrMsg t l x tot cur p := by
  unfold mbim_message_dup mbim_message_new
  rw [len_hdrMsg, h]
  rw [show (20 : Nat) + p.length = (hdrMsg t l x tot cur p).length from (length_hdrMsg ..).symm]
  exact List.take_length _

theorem usub_eq_sub (a b : Nat) (hba : b ≤ a) (ha : a < U32) : usub a b = a - b := by
  unfold usub U32 at *
  omega

theorem e32_readLE32 (m : Msg) (off : Nat) :
    e32 (readLE32 m off) =
      [byteAt m off, byteAt m (off + 1), byteAt m (off + 2), byteAt m (off + 3)] := by
  have h0 := byteAt_lt m off
  have h1 := byteAt_lt m (off + 1)
  have h2 := byteAt_lt m (off + 2)
  have h3 := byteAt_lt m (off + 3)
  simp only [e32, readLE32, List.cons.injEq, and_true]
  refine ⟨by omega, by omega, by omega, by omega⟩

theorem take12_eq (m : Msg) (hWF : ∀ b ∈ m, b < 256) (h : 12 ≤ m.length) :
    m.take 12 = e32 (readLE32 m 0) ++ e32 (readLE32 m 4) ++ e32 (readLE32 m 8) := by
  rw [e32_readLE32, e32_readLE32, e32_readLE32]
  have hb : ∀ i, i < 12 → byteAt m i = m.getD i 0 := by
    intro i hi
    unfold byteAt
    rw [List.getD_eq_getElem _ _ (by omega)]
    exact Nat.mod_eq_of_lt (hWF _ (List.getElem_mem _))
  apply List.ext_getElem
  · simp; omega
  · intro i h1 h2
    simp only [List.getElem_take]
    have hi12 : i < 12 := by simp at h1; omega
    have hgd : m[i] = m.getD i 0 := (List.getD_eq_getElem _ _ (by omega)).symm
    rw [hgd]
    interval_cases i <;>
      simp_all [hb, List.getD_eq_getElem?_getD]

end Mbim

namespace Mbim

theorem length_splitLoop (ty tid totalf F : Nat) :
    ∀ n i off r, (splitLoop ty tid totalf F n i off r).length = n := by
  intro n
  induction n with
  | zero => intro i off r; rfl
  | succ k ih => intro i off r; simp only [splitLoop, List.length_cons, ih]

theorem splitLoop_join (m : Msg) (ty tid totalf F : Nat) :
    ∀ n off r i, r ≤ n * F → 20 + off + r ≤ m.length →
      ((splitLoop ty tid totalf F n i off r).map (fragmentSlice m)).flatten =
        (m.drop (20 + off)).take r := by
  intro n
  induction n with
  | zero =>
    intro off r i hr _
    have h0 : r = 0 := by simpa using hr
    subst h0
    simp [splitLoop]
  | succ k ih =>
    intro off r i hr hin
    have hkF : r ≤ k * F + F := by simpa [Nat.succ_mul] using hr
    by_cases hc : r > F
    · have hstep : splitLoop ty tid totalf F (k + 1) i off r =
        { h_type := ty, h_length := (headerSize + fragmentHeaderSize + F) % U32,
          h_transaction_id := tid, fh_total := totalf, fh_current := i,
          data_offset := off, data_length := F } ::
          splitLoop ty tid totalf F k (i + 1) (off + F) (r - F) := by
        simp [splitLoop, hc]
      rw [hstep]
      simp only [List.map_cons, List.flatten_cons]
      have hIH := ih (off + F) (r - F) (i + 1) (by omega) (by omega)
      rw [hIH]
      unfold fragmentSlice headerSize fragmentHeaderSize
      simp only
      have hdd : m.drop (20 + (off + F)) = (m.drop (20 + off)).drop F := by
        rw [List.drop_drop]
        congr 1
        omega
      have hFr : F + (r - F) = r := by omega
      rw [hdd, ← List.take_add, hFr]
    · have hstep : splitLoop ty tid totalf F (k + 1) i off r =
        { h_type := ty, h_length := (headerSize + fragmentHeaderSize + r) % U32,
          h_transaction_id := tid, fh_total := totalf, fh_current := i,
          data_offset := off, data_length := r } ::
          splitLoop ty tid totalf F k (i + 1) (off + r) (r - r) := by
        simp [splitLoop, hc]
      rw [hstep]
      simp only [List.map_cons, List.flatten_cons, Nat.sub_self]
      have hIH := ih (off + r) 0 (i + 1) (by omega) (by omega)
      rw [hIH]
      simp only [List.take_zero, List.append_nil]
      unfold fragmentSlice headerSize fragmentHeaderSize
      simp only

theorem splitLoop_sum (ty tid totalf F : Nat) :
    ∀ n i off r, r ≤ n * F →
      ((splitLoop ty tid totalf F n i off r).map FragmentInfo.data_length).sum = r := by
  intro n
  induction n with
  | zero =>
    intro i off r hr
    have h0 : r = 0 := by simpa using hr
    subst h0
    rfl
  | succ k ih =>
    intro i off r hr
    have hkF : r ≤ k * F + F := by simpa [Nat.succ_mul] using hr
    by_cases hc : r > F
    · simp only [splitLoop, hc, if_true, List.map_cons, List.sum_cons]
      rw [ih (i + 1) (off + F) (r - F) (by omega)]
      omega
    · simp only [splitLoop, hc, if_false, List.map_cons, List.sum_cons, Nat.sub_self]
      rw [ih (i + 1) (off + r) 0 (by omega)]
      omega

end Mbim

namespace Mbim

theorem splitLoop_getElem (ty tid totalf F : Nat) (hF : 0 < F) (hFU : 20 + F < U32) :
    ∀ n i off r j, j < n → (n - 1) * F < r →
      (splitLoop ty tid totalf F n i off r)[j]? =
        some { h_type := ty, h_length := 20 + min F (r - j * F),
               h_transaction_id := tid, fh_total := totalf, fh_current := i + j,
               data_offset := off + j * F, data_length := min F (r - j * F) } := by
  intro n
  induction n with
  | zero => intro i off r j hj hnr; omega
  | succ k ih =>
    intro i off r j hj hnr
    cases j with
    | zero =>
      simp only [splitLoop, List.getElem?_cons_zero, Option.some.injEq]
      by_cases hc : r > F
      · simp only [hc, if_true]
        have hmin : min F (r - 0 * F) = F := by omega
        have hmod : (headerSize + fragmentHeaderSize + F) % U32 = 20 + F := by
          unfold headerSize fragmentHeaderSize
          rw [Nat.mod_eq_of_lt (by omega)]
        rw [hmod]
        simp [hmin] <;> omega
      · simp only [hc, if_false]
        have hmin : min F (r - 0 * F) = r := by omega
        have hmod : (headerSize + fragmentHeaderSize + r) % U32 = 20 + r := by
          unfold headerSize fragmentHeaderSize
          rw [Nat.mod_eq_of_lt (by omega)]
        rw [hmod]
        simp [hmin] <;> omega
    | succ jj =>
      have hk1 : 1 ≤ k := by omega
      have hnr2 : k * F < r := by
        have hkk : k + 1 - 1 = k := rfl
        rwa [hkk] at hnr
      have hsplitmul : k * F = (k - 1) * F + F := by
        cases k with
        | zero => omega
        | succ kk => simp [Nat.succ_mul]
      have hrF : F < r := by omega
      have hstep : splitLoop ty tid totalf F (k + 1) i off r =
        { h_type := ty, h_length := (headerSize + fragmentHeaderSize + F) % U32,
          h_transaction_id := tid, fh_total := totalf, fh_current := i,
          data_offset := off, data_length := F } ::
          splitLoop ty tid totalf F k (i + 1) (off + F) (r - F) := by
        simp [splitLoop, hrF]
      rw [hstep]
      simp only [List.getElem?_cons_succ]
      have hIH := ih (i + 1) (off + F) (r - F) jj (by omega) (by omega)
      rw [hIH]
      have hsm : (jj + 1) * F = jj * F + F := Nat.succ_mul jj F
      have e1 : i + 1 + jj = i + (jj + 1) := by omega
      have e2 : off + F + jj * F = off + (jj + 1) * F := by omega
      have e3 : r - F - jj * F = r - (jj + 1) * F := by omega
      rw [e1, e2, e3]

end Mbim

namespace Mbim

theorem e32_mod (v : Nat) : e32 (v % U32) = e32 v := by
  simp only [e32, U32, List.cons.injEq, and_true]
  exact ⟨by omega, by omega, by omega, by omega⟩

theorem take_all_of_length (q : Msg) (n : Nat) (h : q.length = n) : q.take n = q := by
  rw [← h]
  exact List.take_length _

theorem add_hdrMsg (t l x tot cur t2 l2 x2 tot2 : Nat) (p q : Msg)
    (hcurU : cur + 1 < U32) (hl : l < U32) (hl2a : 20 ≤ l2) (hl2U : l2 < U32)
    (hq : q.length = l2 - 20) :
    _mbim_message_fragment_collector_add (hdrMsg t l x tot cur p)
      (hdrMsg t2 l2 x2 tot2 (cur + 1) q) =
      (none, hdrMsg t (l + (l2 - 20)) x tot (cur + 1) (p ++ q)) := by
  unfold _mbim_message_fragment_collector_add
  rw [current_hdrMsg, current_hdrMsg]
  rw [Nat.mod_eq_of_lt (show cur < U32 by omega), Nat.mod_eq_of_lt hcurU]
  rw [usub_eq_sub (cur + 1) 1 (by omega) hcurU]
  simp only [Nat.add_sub_cancel, ne_eq, not_true_eq_false, ite_false]
  have hplen : fragmentPayloadLen (hdrMsg t2 l2 x2 tot2 (cur + 1) q) = l2 - 20 := by
    unfold fragmentPayloadLen headerSize fragmentHeaderSize
    rw [len_hdrMsg, Nat.mod_eq_of_lt hl2U]
    rw [usub_eq_sub l2 12 (by omega) hl2U]
    rw [usub_eq_sub (l2 - 12) 8 (by omega) (by omega)]
    omega
  have hpayload : fragmentPayload (hdrMsg t2 l2 x2 tot2 (cur + 1) q) = q := by
    unfold fragmentPayload
    rw [hplen]
    have h20 : headerSize + fragmentHeaderSize = 20 := rfl
    rw [h20, drop20_hdrMsg]
    exact take_all_of_length q _ hq
  rw [hplen, hpayload]
  by_cases hz : l2 - 20 = 0
  · have hqnil : q = [] := List.eq_nil_of_length_eq_zero (by omega)
    subst hqnil
    simp only [hz, ne_eq, not_true_eq_false, ite_false]
    rw [copyBytes4_hdrMsg_current]
    simp [hz]
  · simp only [hz, ne_eq, not_false_eq_true, ite_true]
    rw [hdrMsg_append]
    rw [len_hdrMsg, Nat.mod_eq_of_lt hl]
    rw [writeLE32_hdrMsg_len, copyBytes4_hdrMsg_current]

theorem splitLoop_collect (m : Msg) (t x N F P : Nat)
    (hFU : 20 + F < U32) (hm : m.length = 20 + P) (hLU : 20 + P < U32) :
    ∀ n i off r, off + r = P → r ≤ n * F → i + n + 1 < U32 →
      addAll (hdrMsg t (20 + off) x N i ((m.drop 20).take off))
        ((splitLoop t x N F n (i + 1) off r).map (fragmentInfoToMsg m)) =
      (none, hdrMsg t (20 + off + r) x N (i + n) ((m.drop 20).take (off + r))) := by
  intro n
  induction n with
  | zero =>
    intro i off r h1 h2 h3
    have h0 : r = 0 := by simpa using h2
    subst h0
    simp [splitLoop, addAll]
  | succ k ih =>
    intro i off r h1 h2 h3
    have hkF : r ≤ k * F + F := by simpa [Nat.succ_mul] using h2
    set len := if r > F then F else r with hlen
    have hlenF : len ≤ F := by rw [hlen]; split <;> omega
    have hlenr : len ≤ r := by rw [hlen]; split <;> omega
    have hlenor : len = F ∨ len = r := by
      rw [hlen]
      split
      · exact Or.inl rfl
      · exact Or.inr rfl
    clear_value len
    have hrlen : r - len ≤ k * F := by
      rcases hlenor with h | h <;> omega
    have hstep : splitLoop t x N F (k + 1) (i + 1) off r =
      { h_type := t, h_length := (headerSize + fragmentHeaderSize + len) % U32,
        h_transaction_id := x, fh_total := N, fh_current := i + 1,
        data_offset := off, data_length := len } ::
        splitLoop t x N F k (i + 1 + 1) (off + len) (r - len) := by
      rw [hlen]
      split <;> simp [splitLoop] <;> split <;> simp_all
    rw [hstep]
    simp only [List.map_cons]
    have htoMsg : fragmentInfoToMsg m
        { h_type := t, h_length := (headerSize + fragmentHeaderSize + len) % U32,
          h_transaction_id := x, fh_total := N, fh_current := i + 1,
          data_offset := off, data_length := len } =
        hdrMsg t (20 + len) x N (i + 1) ((m.drop (20 + off)).take len) := by
      unfold fragmentInfoToMsg hdrMsg fragmentSlice headerSize fragmentHeaderSize
      simp only
      rw [show (12 + 8 + len) % U32 = (20 + len) % U32 by norm_num]
      rw [e32_mod]
    rw [htoMsg]
    show addAll _ (_ :: _) = _
    unfold addAll
    have hslicelen : ((m.drop (20 + off)).take len).length = (20 + len) - 20 := by
      rw [List.length_take, List.length_drop, hm]
      omega
    rw [add_hdrMsg t (20 + off) x N i t (20 + len) x N
      ((m.drop 20).take off) ((m.drop (20 + off)).take len)
      (by omega) (by omega) (by omega) (by omega) hslicelen]
    simp only
    have hglue : (m.drop 20).take off ++ (m.drop (20 + off)).take len =
        (m.drop 20).take (off + len) := by
      have hdd : m.drop (20 + off) = (m.drop 20).drop off := by
        rw [List.drop_drop]
      rw [hdd, List.take_add]
    have hlen20 : 20 + off + ((20 + len) - 20) = 20 + (off + len) := by omega
    rw [hglue, hlen20]
    have hIH := ih (i + 1) (off + len) (r - len) (by omega) hrlen (by omega)
    rw [hIH]
    have ef1 : 20 + (off + len) + (r - len) = 20 + off + r := by omega
    have ef2 : i + 1 + k = i + (k + 1) := by omega
    have ef3 : off + len + (r - len) = off + r := by omega
    rw [ef1, ef2, ef3]

end Mbim

namespace Mbim

/-- C9: `mbim_message_get_raw` fails with the "Message is empty" error exactly
when the buffer has zero length; otherwise it returns the whole serialized
buffer together with its full byte count in the length out-parameter. -/
theorem C9_get_raw (m : Msg) :
    (mbim_message_get_raw m = .error "Message is empty" ↔ m.length = 0) ∧
    (m.length ≠ 0 → mbim_message_get_raw m = .ok (m, m.length)) := by
  refine ⟨⟨?_, ?_⟩, ?_⟩
  · intro h
    by_contra hne
    simp [mbim_message_get_raw, hne] at h
  · intro h
    simp [mbim_message_get_raw, h]
  · intro h
    simp [mbim_message_get_raw, h]

/-- C9 witness: the empty buffer errors, a 4-byte buffer is returned whole. -/
theorem C9_witness :
    mbim_message_get_raw [] = .error "Message is empty" ∧
    mbim_message_get_raw [1, 0, 0, 0] = .ok ([1, 0, 0, 0], 4) :=
  ⟨(C9_get_raw []).1.mpr (by decide), (C9_get_raw [1, 0, 0, 0]).2 (by decide)⟩

/-- C10: when the collector rejects a fragment as out of sequence, the
collector's message buffer is returned byte-for-byte unchanged; when
`complete` reports `false`, the message is likewise unchanged. -/
theorem C10_failure_atomicity :
    (∀ s f e, (_mbim_message_fragment_collector_add s f).1 = some e →
      (_mbim_message_fragment_collector_add s f).2 = s) ∧
    (∀ s, (_mbim_message_fragment_collector_complete s).1 = false →
      (_mbim_message_fragment_collector_complete s).2 = s) := by
  constructor
  · intro s f e h
    by_cases hc : _mbim_message_fragment_get_current s ≠
        usub (_mbim_message_fragment_get_current f) 1
    · simp [_mbim_message_fragment_collector_add, hc]
    · simp [_mbim_message_fragment_collector_add, hc] at h
  · intro s h
    by_cases hc : _mbim_message_fragment_get_current s ≠
        usub (_mbim_message_fragment_get_total s) 1
    · simp [_mbim_message_fragment_collector_complete, hc]
    · simp [_mbim_message_fragment_collector_complete, hc] at h

/-- C10 witness: a concrete rejected add (fragment 2 after fragment 0) and a
concrete incomplete `complete` both leave the collector message unchanged. -/
theorem C10_witness :
    (_mbim_message_fragment_collector_add
      [3, 0, 0, 0, 20, 0, 0, 0, 9, 0, 0, 0, 2, 0, 0, 0, 0, 0, 0, 0]
      [3, 0, 0, 0, 22, 0, 0, 0, 9, 0, 0, 0, 2, 0, 0, 0, 2, 0, 0, 0, 7, 8]).2 =
      [3, 0, 0, 0, 20, 0, 0, 0, 9, 0, 0, 0, 2, 0, 0, 0, 0, 0, 0, 0] ∧
    (_mbim_message_fragment_collector_complete
      [3, 0, 0, 0, 20, 0, 0, 0, 9, 0, 0, 0, 2, 0, 0, 0, 0, 0, 0, 0]).2 =
      [3, 0, 0, 0, 20, 0, 0, 0, 9, 0, 0, 0, 2, 0, 0, 0, 0, 0, 0, 0] :=
  ⟨C10_failure_atomicity.1 _ _ ⟨1, 2, 2, 2⟩ (by decide),
   C10_failure_atomicity.2 _ (by decide)⟩

/-- C6 counterexample: a 20-byte buffer whose header length field reads 16
(legal, since `mbim_message_new` does not validate) is truncated by `dup`,
so `raw(dup(dup(m)))` differs from `raw(m)`. -/
theorem C6_counterexample :
    mbim_message_get_raw (mbim_message_dup (mbim_message_dup
      [1, 0, 0, 0, 16, 0, 0, 0, 7, 0, 0, 0, 0, 16, 0, 0, 0, 0, 0, 0])) ≠
    mbim_message_get_raw
      [1, 0, 0, 0, 16, 0, 0, 0, 7, 0, 0, 0, 0, 16, 0, 0, 0, 0, 0, 0] := by
  have h1 : mbim_message_get_raw (mbim_message_dup (mbim_message_dup
      [1, 0, 0, 0, 16, 0, 0, 0, 7, 0, 0, 0, 0, 16, 0, 0, 0, 0, 0, 0])) =
      Except.ok ([1, 0, 0, 0, 16, 0, 0, 0, 7, 0, 0, 0, 0, 16, 0, 0], 16) := rfl
  have h2 : mbim_message_get_raw
      [1, 0, 0, 0, 16, 0, 0, 0, 7, 0, 0, 0, 0, 16, 0, 0, 0, 0, 0, 0] =
      Except.ok ([1, 0, 0, 0, 16, 0, 0, 0, 7, 0, 0, 0, 0, 16, 0, 0, 0, 0, 0, 0], 20) := rfl
  rw [h1, h2]
  intro h
  simp at h

/-- C6 (amended): for every message whose header length field equals its
buffer's byte length, `raw(dup(dup(m)))` equals `raw(m)` byte-for-byte
(`dup` deep-copies exactly `message_length(m)` bytes). -/
theorem C6_dup_idempotent (m : Msg)
    (h : mbim_message_get_message_length m = m.length) :
    mbim_message_get_raw (mbim_message_dup (mbim_message_dup m)) =
      mbim_message_get_raw m := by
  have hd : mbim_message_dup m = m := by
    unfold mbim_message_dup mbim_message_new
    rw [h]
    exact List.take_length _
  rw [hd, hd]

/-- C6 witness: the amended theorem applied to a concrete OPEN message. -/
theorem C6_witness :
    mbim_message_get_raw (mbim_message_dup (mbim_message_dup
      [1, 0, 0, 0, 16, 0, 0, 0, 7, 0, 0, 0, 0, 16, 0, 0])) =
      mbim_message_get_raw [1, 0, 0, 0, 16, 0, 0, 0, 7, 0, 0, 0, 0, 16, 0, 0] :=
  C6_dup_idempotent _ (by decide)

end Mbim

namespace Mbim

theorem open_new_eq (tid mct : Nat) :
    mbim_message_open_new tid mct = e32 1 ++ e32 16 ++ e32 tid ++ e32 mct := rfl

theorem close_new_eq (tid : Nat) :
    mbim_message_close_new tid = e32 2 ++ e32 12 ++ e32 tid := rfl

theorem error_new_eq (tid code : Nat) :
    mbim_message_error_new tid code = e32 4 ++ e32 16 ++ e32 tid ++ e32 code := rfl

/-- C7: `open_new(tid, mct)` builds a 16-byte buffer whose four `u32` words at
offsets 0, 4, 8, 12 decode (LE) to 1 (OPEN), 16 (length), `tid` and `mct`; its
serialized bytes are little-endian independently of the host, so the first four
raw bytes are 0x01 0x00 0x00 0x00; concretely `open_new(7, 4096)` decodes to
0x01, 0x00000010, 0x07, 0x00001000. -/
theorem C7_open_new_bytes :
    (∀ tid mct : Nat, tid < U32 → mct < U32 →
      (mbim_message_open_new tid mct).length = 16 ∧
      readLE32 (mbim_message_open_new tid mct) 0 = 1 ∧
      readLE32 (mbim_message_open_new tid mct) 4 = 16 ∧
      readLE32 (mbim_message_open_new tid mct) 8 = tid ∧
      readLE32 (mbim_message_open_new tid mct) 12 = mct ∧
      (mbim_message_open_new tid mct).take 4 = [0x01, 0x00, 0x00, 0x00]) ∧
    (readLE32 (mbim_message_open_new 7 4096) 0 = 0x01 ∧
     readLE32 (mbim_message_open_new 7 4096) 4 = 0x00000010 ∧
     readLE32 (mbim_message_open_new 7 4096) 8 = 0x07 ∧
     readLE32 (mbim_message_open_new 7 4096) 12 = 0x00001000) := by
  constructor
  · intro tid mct htid hmct
    rw [open_new_eq]
    refine ⟨by simp [e32], ?_, ?_, ?_, ?_, by rfl⟩ <;>
      · simp only [e32, readLE32, byteAt, U32] at *
        simp
        try omega
  · exact ⟨by decide, by decide, by decide, by decide⟩

/-- C7 witness: the typed-field part applied at `tid = 7`, `mct = 4096`. -/
theorem C7_witness :
    (mbim_message_open_new 7 4096).length = 16 ∧
    readLE32 (mbim_message_open_new 7 4096) 0 = 1 ∧
    readLE32 (mbim_message_open_new 7 4096) 4 = 16 ∧
    readLE32 (mbim_message_open_new 7 4096) 8 = 7 ∧
    readLE32 (mbim_message_open_new 7 4096) 12 = 4096 ∧
    (mbim_message_open_new 7 4096).take 4 = [0x01, 0x00, 0x00, 0x00] :=
  C7_open_new_bytes.1 7 4096 (by decide) (by decide)

end Mbim

namespace Mbim

theorem usub_one_iff (cs cf : Nat) (hcs : cs < U32) (hcf : cf < U32)
    (hsucc : cs + 1 < U32) : cs = usub cf 1 ↔ cf = cs + 1 := by
  unfold usub U32 at *
  constructor <;> intro h <;> omega

/-- C3: the collector's sequencing discipline.  `init` succeeds (returning a
deep copy) exactly when the first fragment's `current` is 0 and otherwise
fails with a FRAGMENT_OUT_OF_SEQUENCE error carrying expected `0/total` and
the actual `current/total`; `add` succeeds exactly when the new fragment's
`current` is the collector's `current + 1` and otherwise fails with the error
carrying expected `(current+1)/total` and the actual pair.  Concretely,
feeding fragments 0 then 2 of a 2-fragment message fails citing expected 1/2,
got 2/2. -/
theorem C3_collector_sequencing :
    (∀ f, _mbim_message_fragment_get_current f = 0 →
      _mbim_message_fragment_collector_init f = .ok (mbim_message_dup f)) ∧
    (∀ f, _mbim_message_fragment_get_current f ≠ 0 →
      _mbim_message_fragment_collector_init f =
        .error ⟨0, _mbim_message_fragment_get_total f,
                _mbim_message_fragment_get_current f,
                _mbim_message_fragment_get_total f⟩) ∧
    (∀ s f, _mbim_message_fragment_get_current s + 1 < U32 →
      ((_mbim_message_fragment_collector_add s f).1 = none ↔
        _mbim_message_fragment_get_current f =
          _mbim_message_fragment_get_current s + 1)) ∧
    (∀ s f, _mbim_message_fragment_get_current s + 1 < U32 →
      _mbim_message_fragment_get_current f ≠
        _mbim_message_fragment_get_current s + 1 →
      (_mbim_message_fragment_collector_add s f).1 =
        some ⟨_mbim_message_fragment_get_current s + 1,
              _mbim_message_fragment_get_total s,
              _mbim_message_fragment_get_current f,
              _mbim_message_fragment_get_total f⟩) ∧
    (_mbim_message_fragment_collector_init
        [3, 0, 0, 0, 20, 0, 0, 0, 9, 0, 0, 0, 2, 0, 0, 0, 0, 0, 0, 0] =
      .ok [3, 0, 0, 0, 20, 0, 0, 0, 9, 0, 0, 0, 2, 0, 0, 0, 0, 0, 0, 0] ∧
     (_mbim_message_fragment_collector_add
        [3, 0, 0, 0, 20, 0, 0, 0, 9, 0, 0, 0, 2, 0, 0, 0, 0, 0, 0, 0]
        [3, 0, 0, 0, 22, 0, 0, 0, 9, 0, 0, 0, 2, 0, 0, 0, 2, 0, 0, 0, 7, 8]).1 =
       some ⟨1, 2, 2, 2⟩) := by
  refine ⟨?_, ?_, ?_, ?_, rfl, rfl⟩
  · intro f h
    simp [_mbim_message_fragment_collector_init, h]
  · intro f h
    simp [_mbim_message_fragment_collector_init, h]
  · intro s f hsucc
    have hiff := usub_one_iff (_mbim_message_fragment_get_current s)
      (_mbim_message_fragment_get_current f) (readLE32_lt _ _) (readLE32_lt _ _) hsucc
    unfold _mbim_message_fragment_collector_add
    by_cases hc : _mbim_message_fragment_get_current s =
        usub (_mbim_message_fragment_get_current f) 1
    · rw [if_neg (by simpa using hc)]
      simpa using hiff.mp hc
    · rw [if_pos (by simpa using hc)]
      simp only [Option.some_ne_none, false_iff]
      intro h
      exact hc (hiff.mpr h)
  · intro s f hsucc hne
    have hiff := usub_one_iff (_mbim_message_fragment_get_current s)
      (_mbim_message_fragment_get_current f) (readLE32_lt _ _) (readLE32_lt _ _) hsucc
    have hc : _mbim_message_fragment_get_current s ≠
        usub (_mbim_message_fragment_get_current f) 1 := by
      intro h
      exact hne (hiff.mp h)
    simp [_mbim_message_fragment_collector_add, hc]
    exact Nat.mod_eq_of_lt hsucc

/-- C3 witness: the sequencing parts applied at concrete fragments — a first
fragment numbered 1 is rejected, a successor fragment numbered 1 after 0 is
accepted, and a fragment numbered 2 after 0 is rejected with expected 1/2. -/
theorem C3_witness :
    _mbim_message_fragment_collector_init
      [3, 0, 0, 0, 21, 0, 0, 0, 9, 0, 0, 0, 2, 0, 0, 0, 1, 0, 0, 0, 5] =
      .error ⟨0, 2, 1, 2⟩ ∧
    ((_mbim_message_fragment_collector_add
      [3, 0, 0, 0, 20, 0, 0, 0, 9, 0, 0, 0, 2, 0, 0, 0, 0, 0, 0, 0]
      [3, 0, 0, 0, 21, 0, 0, 0, 9, 0, 0, 0, 2, 0, 0, 0, 1, 0, 0, 0, 5]).1 = none) ∧
    (_mbim_message_fragment_collector_add
      [3, 0, 0, 0, 20, 0, 0, 0, 9, 0, 0, 0, 2, 0, 0, 0, 0, 0, 0, 0]
      [3, 0, 0, 0, 22, 0, 0, 0, 9, 0, 0, 0, 2, 0, 0, 0, 2, 0, 0, 0, 7, 8]).1 =
      some ⟨1, 2, 2, 2⟩ := by
  refine ⟨?_, ?_, ?_⟩
  · have h := C3_collector_sequencing.2.1
      [3, 0, 0, 0, 21, 0, 0, 0, 9, 0, 0, 0, 2, 0, 0, 0, 1, 0, 0, 0, 5] (by decide)
    simpa using h
  · exact (C3_collector_sequencing.2.2.1
      [3, 0, 0, 0, 20, 0, 0, 0, 9, 0, 0, 0, 2, 0, 0, 0, 0, 0, 0, 0]
      [3, 0, 0, 0, 21, 0, 0, 0, 9, 0, 0, 0, 2, 0, 0, 0, 1, 0, 0, 0, 5]
      (by decide)).mpr (by decide)
  · have h := C3_collector_sequencing.2.2.2.1
      [3, 0, 0, 0, 20, 0, 0, 0, 9, 0, 0, 0, 2, 0, 0, 0, 0, 0, 0, 0]
      [3, 0, 0, 0, 22, 0, 0, 0, 9, 0, 0, 0, 2, 0, 0, 0, 2, 0, 0, 0, 7, 8]
      (by decide) (by decide)
    simpa using h

end Mbim

namespace Mbim

theorem getD_writeLE32_ne (m : Msg) (off v i : Nat) (h : i < off ∨ off + 4 ≤ i) :
    (writeLE32 m off v).getD i 0 = m.getD i 0 := by
  unfold writeLE32
  rw [getD_set_ne _ _ _ _ (by omega), getD_set_ne _ _ _ _ (by omega),
    getD_set_ne _ _ _ _ (by omega), getD_set_ne _ _ _ _ (by omega)]

theorem getD_copyBytes4_ne (dst : Msg) (doff : Nat) (src : Msg) (soff i : Nat)
    (h : i < doff ∨ doff + 4 ≤ i) :
    (copyBytes4 dst doff src soff).getD i 0 = dst.getD i 0 := by
  unfold copyBytes4
  rw [getD_set_ne _ _ _ _ (by omega), getD_set_ne _ _ _ _ (by omega),
    getD_set_ne _ _ _ _ (by omega), getD_set_ne _ _ _ _ (by omega)]

theorem complete_norm_bytes (s : Msg) (h : 20 ≤ s.length) :
    ((writeLE32 (writeLE32 s 16 0) 12 1).drop 12).take 8 =
      [1, 0, 0, 0, 0, 0, 0, 0] := by
  have hlen : (writeLE32 (writeLE32 s 16 0) 12 1).length = s.length := by
    rw [length_writeLE32, length_writeLE32]
  apply List.ext_getElem
  · simp [hlen]
    omega
  · intro i h1 h2
    simp only [List.getElem_take, List.getElem_drop]
    have hi8 : i < 8 := by
      simp [hlen] at h1
      omega
    have hgd : (writeLE32 (writeLE32 s 16 0) 12 1)[12 + i] =
        (writeLE32 (writeLE32 s 16 0) 12 1).getD (12 + i) 0 := by
      rw [List.getD_eq_getElem _ _ (by omega)]
    rw [hgd]
    have hb0 : ∀ j, j < 4 →
        (writeLE32 (writeLE32 s 16 0) 12 1).getD (12 + j) 0 = Nat.div 1 (256 ^ j) % 256 := by
      intro j hj
      unfold writeLE32
      interval_cases j <;>
        · simp only [Nat.reduceAdd]
          first
          | rw [getD_set_ne _ _ _ _ (by omega), getD_set_ne _ _ _ _ (by omega),
              getD_set_ne _ _ _ _ (by omega), getD_set_eq _ _ _ (by (try simp); omega)]
          | rw [getD_set_ne _ _ _ _ (by omega), getD_set_ne _ _ _ _ (by omega),
              getD_set_eq _ _ _ (by (try simp); omega)]
          | rw [getD_set_ne _ _ _ _ (by omega), getD_set_eq _ _ _ (by (try simp); omega)]
          | rw [getD_set_eq _ _ _ (by (try simp); omega)]
          try norm_num
    have hb1 : ∀ j, j < 4 →
        (writeLE32 (writeLE32 s 16 0) 12 1).getD (16 + j) 0 = 0 := by
      intro j hj
      rw [getD_writeLE32_ne _ _ _ _ (by omega)]
      unfold writeLE32
      interval_cases j <;>
        · simp only [Nat.reduceAdd]
          first
          | rw [getD_set_ne _ _ _ _ (by omega), getD_set_ne _ _ _ _ (by omega),
              getD_set_ne _ _ _ _ (by omega), getD_set_eq _ _ _ (by (try simp); omega)]
          | rw [getD_set_ne _ _ _ _ (by omega), getD_set_ne _ _ _ _ (by omega),
              getD_set_eq _ _ _ (by (try simp); omega)]
          | rw [getD_set_ne _ _ _ _ (by omega), getD_set_eq _ _ _ (by (try simp); omega)]
          | rw [getD_set_eq _ _ _ (by (try simp); omega)]
          try norm_num
    interval_cases i
    · rw [show 12 + 0 = 12 + 0 from rfl]; rw [hb0 0 (by omega)]; rfl
    · rw [hb0 1 (by omega)]; rfl
    · rw [hb0 2 (by omega)]; rfl
    · rw [hb0 3 (by omega)]; rfl
    · rw [show (12 : Nat) + 4 = 16 + 0 by omega, hb1 0 (by omega)]; rfl
    · rw [show (12 : Nat) + 5 = 16 + 1 by omega, hb1 1 (by omega)]; rfl
    · rw [show (12 : Nat) + 6 = 16 + 2 by omega, hb1 2 (by omega)]; rfl
    · rw [show (12 : Nat) + 7 = 16 + 3 by omega, hb1 3 (by omega)]; rfl

end Mbim

namespace Mbim

/-- C4: for an in-progress fragmented message (length ≥ 20, `total ≥ 1`),
`complete` returns true exactly when `current + 1 = total`, and in that case it
rewrites the 8 fragment-header bytes at offsets 12..20 to the little-endian
encoding of `total = 1`, `current = 0`, leaving the message type unchanged —
the shape of a single-fragment message of the same type. -/
theorem C4_collector_complete (s : Msg) (h20 : 20 ≤ s.length)
    (htot : 1 ≤ _mbim_message_fragment_get_total s) :
    ((_mbim_message_fragment_collector_complete s).1 = true ↔
      _mbim_message_fragment_get_current s + 1 =
        _mbim_message_fragment_get_total s) ∧
    ((_mbim_message_fragment_collector_complete s).1 = true →
      ((_mbim_message_fragment_collector_complete s).2.drop 12).take 8 =
          [1, 0, 0, 0, 0, 0, 0, 0] ∧
        _mbim_message_fragment_get_total
          (_mbim_message_fragment_collector_complete s).2 = 1 ∧
        _mbim_message_fragment_get_current
          (_mbim_message_fragment_collector_complete s).2 = 0 ∧
        mbim_message_get_message_type
          (_mbim_message_fragment_collector_complete s).2 =
          mbim_message_get_message_type s) := by
  have hT : _mbim_message_fragment_get_total s < U32 := readLE32_lt _ _
  have hC : _mbim_message_fragment_get_current s < U32 := readLE32_lt _ _
  have hu : usub (_mbim_message_fragment_get_total s) 1 =
      _mbim_message_fragment_get_total s - 1 := usub_eq_sub _ _ htot hT
  unfold _mbim_message_fragment_collector_complete
  by_cases hc : _mbim_message_fragment_get_current s ≠
      usub (_mbim_message_fragment_get_total s) 1
  · rw [if_pos hc]
    constructor
    · constructor
      · intro h
        simp at h
      · intro h
        rw [hu] at hc
        omega
    · intro h
      simp at h
  · rw [if_neg hc]
    rw [hu] at hc
    have hceq : _mbim_message_fragment_get_current s =
        _mbim_message_fragment_get_total s - 1 := by omega
    constructor
    · simp only [true_iff]
      omega
    · intro _
      have hw20 : 20 ≤ (writeLE32 s 16 0).length := by rw [length_writeLE32]; exact h20
      refine ⟨complete_norm_bytes s h20, ?_, ?_, ?_⟩
      · show readLE32 _ 12 = 1
        rw [readLE32_writeLE32_eq _ _ _ (by omega)]
        decide
      · show readLE32 _ 16 = 0
        rw [readLE32_writeLE32_ne _ _ _ _ (by omega)]
        rw [readLE32_writeLE32_eq _ _ _ (by omega)]
        decide
      · show readLE32 _ 0 = readLE32 s 0
        rw [readLE32_writeLE32_ne _ _ _ _ (by omega),
          readLE32_writeLE32_ne _ _ _ _ (by omega)]

/-- C4 witness: a two-fragment collector state at `current = 1`, `total = 2`
completes and is normalized to `total = 1`, `current = 0`. -/
theorem C4_witness :
    (_mbim_message_fragment_collector_complete
        [3, 0, 0, 0, 25, 0, 0, 0, 9, 0, 0, 0, 2, 0, 0, 0, 1, 0, 0, 0,
         10, 11, 12, 13, 14]).1 = true ∧
    ((_mbim_message_fragment_collector_complete
        [3, 0, 0, 0, 25, 0, 0, 0, 9, 0, 0, 0, 2, 0, 0, 0, 1, 0, 0, 0,
         10, 11, 12, 13, 14]).2.drop 12).take 8 = [1, 0, 0, 0, 0, 0, 0, 0] := by
  have h := C4_collector_complete
    [3, 0, 0, 0, 25, 0, 0, 0, 9, 0, 0, 0, 2, 0, 0, 0, 1, 0, 0, 0,
     10, 11, 12, 13, 14] (by decide) (by decide)
  exact ⟨h.1.mpr (by decide), (h.2 (h.1.mpr (by decide))).1⟩

end Mbim

namespace Mbim

theorem readLE32_append_left (m q : Msg) (off : Nat) (h : off + 4 ≤ m.length) :
    readLE32 (m ++ q) off = readLE32 m off := by
  unfold readLE32 byteAt
  rw [List.getD_append _ _ _ _ (by omega), List.getD_append _ _ _ _ (by omega),
    List.getD_append _ _ _ _ (by omega), List.getD_append _ _ _ _ (by omega)]

theorem fragmentPayloadLen_eq (f : Msg)
    (h : 20 ≤ mbim_message_get_message_length f) :
    fragmentPayloadLen f = mbim_message_get_message_length f - 20 := by
  have hU := readLE32_lt f 4
  unfold fragmentPayloadLen headerSize fragmentHeaderSize
  unfold mbim_message_get_message_length at *
  rw [usub_eq_sub _ 12 (by omega) hU]
  rw [usub_eq_sub _ 8 (by omega) (by omega)]
  omega

theorem fragmentPayload_length (f : Msg)
    (h : 20 ≤ mbim_message_get_message_length f)
    (hb : mbim_message_get_message_length f = f.length) :
    (fragmentPayload f).length = mbim_message_get_message_length f - 20 := by
  unfold fragmentPayload
  rw [fragmentPayloadLen_eq f h]
  rw [List.length_take, List.length_drop]
  unfold headerSize fragmentHeaderSize
  omega

/-- C5: the header length field equals the backing buffer's byte length after
each typed constructor (`open_new`, `close_new`, `error_new`), after a
successful collector `init` or `add` step (on well-formed inputs, with the
grown length below `2^32`), and after `complete` (both branches). -/
theorem C5_length_invariant :
    (∀ tid mct, mbim_message_get_message_length (mbim_message_open_new tid mct) =
      (mbim_message_open_new tid mct).length) ∧
    (∀ tid, mbim_message_get_message_length (mbim_message_close_new tid) =
      (mbim_message_close_new tid).length) ∧
    (∀ tid code, mbim_message_get_message_length (mbim_message_error_new tid code) =
      (mbim_message_error_new tid code).length) ∧
    (∀ f c, mbim_message_get_message_length f = f.length →
      _mbim_message_fragment_collector_init f = .ok c →
      mbim_message_get_message_length c = c.length) ∧
    (∀ s f r, 20 ≤ s.length →
      mbim_message_get_message_length s = s.length →
      mbim_message_get_message_length f = f.length →
      20 ≤ mbim_message_get_message_length f →
      mbim_message_get_message_length s +
        (mbim_message_get_message_length f - 20) < U32 →
      _mbim_message_fragment_collector_add s f = (none, r) →
      mbim_message_get_message_length r = r.length) ∧
    (∀ s b r, mbim_message_get_message_length s = s.length →
      _mbim_message_fragment_collector_complete s = (b, r) →
      mbim_message_get_message_length r = r.length) := by
  refine ⟨?_, ?_, ?_, ?_, ?_, ?_⟩
  · intro tid mct
    rw [open_new_eq]
    simp [e32, mbim_message_get_message_length, readLE32, byteAt]
  · intro tid
    rw [close_new_eq]
    simp [e32, mbim_message_get_message_length, readLE32, byteAt]
  · intro tid code
    rw [error_new_eq]
    simp [e32, mbim_message_get_message_length, readLE32, byteAt]
  · intro f c hf hinit
    unfold _mbim_message_fragment_collector_init at hinit
    by_cases hc : _mbim_message_fragment_get_current f ≠ 0
    · rw [if_pos hc] at hinit
      exact absurd hinit (by simp)
    · rw [if_neg hc] at hinit
      have hdup : mbim_message_dup f = f := by
        unfold mbim_message_dup mbim_message_new
        rw [hf]
        exact List.take_length _
      have hcf : c = f := by
        rw [hdup] at hinit
        exact (Except.ok.injEq _ _ ▸ hinit).symm ▸ rfl
      rw [hcf]
      exact hf
  · intro s f r h20s hLs hLf h20f hsum hadd
    unfold _mbim_message_fragment_collector_add at hadd
    by_cases hc : _mbim_message_fragment_get_current s ≠
        usub (_mbim_message_fragment_get_current f) 1
    · rw [if_pos hc] at hadd
      simp at hadd
    · rw [if_neg hc] at hadd
      simp only [Prod.mk.injEq] at hadd
      obtain ⟨-, hr⟩ := hadd
      subst hr
      have hplen : fragmentPayloadLen f = mbim_message_get_message_length f - 20 :=
        fragmentPayloadLen_eq f h20f
      have hpl : (fragmentPayload f).length = mbim_message_get_message_length f - 20 :=
        fragmentPayload_length f h20f hLf
      by_cases hz : fragmentPayloadLen f ≠ 0
      · rw [if_pos hz]
        show readLE32 _ 4 = _
        rw [readLE32_copyBytes4_ne _ _ _ _ _ (by omega), length_copyBytes4]
        rw [readLE32_writeLE32_eq _ _ _
          (by rw [List.length_append]; omega)]
        rw [length_writeLE32, List.length_append]
        show (readLE32 (s ++ fragmentPayload f) 4 + fragmentPayloadLen f) % U32 = _
        rw [readLE32_append_left _ _ _ (by omega)]
        show (mbim_message_get_message_length s + fragmentPayloadLen f) % U32 = _
        rw [hplen, Nat.mod_eq_of_lt hsum]
        omega
      · rw [if_neg hz]
        show readLE32 _ 4 = _
        rw [readLE32_copyBytes4_ne _ _ _ _ _ (by omega), length_copyBytes4]
        exact hLs
  · intro s b r hLs hcomp
    unfold _mbim_message_fragment_collector_complete at hcomp
    by_cases hc : _mbim_message_fragment_get_current s ≠
        usub (_mbim_message_fragment_get_total s) 1
    · rw [if_pos hc] at hcomp
      simp only [Prod.mk.injEq] at hcomp
      obtain ⟨-, hr⟩ := hcomp
      subst hr
      exact hLs
    · rw [if_neg hc] at hcomp
      simp only [Prod.mk.injEq] at hcomp
      obtain ⟨-, hr⟩ := hcomp
      subst hr
      show readLE32 _ 4 = _
      rw [readLE32_writeLE32_ne _ _ _ _ (by omega),
        readLE32_writeLE32_ne _ _ _ _ (by omega)]
      rw [length_writeLE32, length_writeLE32]
      exact hLs

/-- C5 witness: the invariant at concrete inputs — `open_new(7, 4096)`,
`close_new(0)`, `error_new(42, 17)`, a collector `init`, a successful `add`
and a `complete` step. -/
theorem C5_witness :
    mbim_message_get_message_length (mbim_message_open_new 7 4096) =
      (mbim_message_open_new 7 4096).length ∧
    mbim_message_get_message_length (mbim_message_close_new 0) =
      (mbim_message_close_new 0).length ∧
    mbim_message_get_message_length (mbim_message_error_new 42 17) =
      (mbim_message_error_new 42 17).length ∧
    mbim_message_get_message_length
      ((_mbim_message_fragment_collector_add
        [3, 0, 0, 0, 20, 0, 0, 0, 9, 0, 0, 0, 2, 0, 0, 0, 0, 0, 0, 0]
        [3, 0, 0, 0, 21, 0, 0, 0, 9, 0, 0, 0, 2, 0, 0, 0, 1, 0, 0, 0, 5]).2) =
      ((_mbim_message_fragment_collector_add
        [3, 0, 0, 0, 20, 0, 0, 0, 9, 0, 0, 0, 2, 0, 0, 0, 0, 0, 0, 0]
        [3, 0, 0, 0, 21, 0, 0, 0, 9, 0, 0, 0, 2, 0, 0, 0, 1, 0, 0, 0, 5]).2).length := by
  refine ⟨C5_length_invariant.1 7 4096, C5_length_invariant.2.1 0,
    C5_length_invariant.2.2.1 42 17, ?_⟩
  exact C5_length_invariant.2.2.2.2.1
    [3, 0, 0, 0, 20, 0, 0, 0, 9, 0, 0, 0, 2, 0, 0, 0, 0, 0, 0, 0]
    [3, 0, 0, 0, 21, 0, 0, 0, 9, 0, 0, 0, 2, 0, 0, 0, 1, 0, 0, 0, 5]
    _ (by decide) (by decide) (by decide) (by decide) (by decide) rfl

end Mbim

namespace Mbim

theorem byteAt_copyBytes4_eq (dst : Msg) (src : Msg) (k : Nat) (hk : k < 4)
    (hlen : 20 ≤ dst.length) :
    byteAt (copyBytes4 dst 16 src 16) (16 + k) = byteAt src (16 + k) := by
  unfold copyBytes4
  unfold byteAt
  have hb : ∀ j, byteAt src j % 256 = byteAt src j :=
    fun j => Nat.mod_eq_of_lt (byteAt_lt src j)
  interval_cases k
  · rw [getD_set_ne _ _ _ _ (by omega), getD_set_ne _ _ _ _ (by omega),
      getD_set_ne _ _ _ _ (by omega), getD_set_eq _ _ _ (by (try simp); omega)]
    exact hb 16
  · rw [getD_set_ne _ _ _ _ (by omega), getD_set_ne _ _ _ _ (by omega),
      getD_set_eq _ _ _ (by (try simp); omega)]
    exact hb 17
  · rw [getD_set_ne _ _ _ _ (by omega),
      getD_set_eq _ _ _ (by (try simp); omega)]
    exact hb 18
  · rw [getD_set_eq _ _ _ (by (try simp); omega)]
    exact hb 19

theorem readLE32_copyBytes4_eq (dst : Msg) (src : Msg) (hlen : 20 ≤ dst.length) :
    readLE32 (copyBytes4 dst 16 src 16) 16 = readLE32 src 16 := by
  unfold readLE32
  rw [show (16 : Nat) = 16 + 0 from rfl]
  rw [byteAt_copyBytes4_eq dst src 0 (by omega) hlen,
    byteAt_copyBytes4_eq dst src 1 (by omega) hlen,
    byteAt_copyBytes4_eq dst src 2 (by omega) hlen,
    byteAt_copyBytes4_eq dst src 3 (by omega) hlen]

theorem drop_writeLE32 (m : Msg) (off v n : Nat) (h : off + 4 ≤ n) :
    (writeLE32 m off v).drop n = m.drop n := by
  unfold writeLE32
  rw [List.drop_set_of_lt _ _ (by omega : off + 3 < n),
    List.drop_set_of_lt _ _ (by omega : off + 2 < n),
    List.drop_set_of_lt _ _ (by omega : off + 1 < n),
    List.drop_set_of_lt _ _ (by omega : off < n)]

theorem drop_copyBytes4 (dst : Msg) (doff : Nat) (src : Msg) (soff n : Nat)
    (h : doff + 4 ≤ n) :
    (copyBytes4 dst doff src soff).drop n = dst.drop n := by
  unfold copyBytes4
  rw [List.drop_set_of_lt _ _ (by omega : doff + 3 < n),
    List.drop_set_of_lt _ _ (by omega : doff + 2 < n),
    List.drop_set_of_lt _ _ (by omega : doff + 1 < n),
    List.drop_set_of_lt _ _ (by omega : doff < n)]

end Mbim

namespace Mbim

/-- C8: when the collector accepts a fragment, the resulting message is the old
one with exactly the fragment's payload bytes (those after its fragment
header) appended at the end, the header length field incremented by the number
of appended bytes, and `fragment_header.current` overwritten with the
fragment's `current`; the type, transaction id, `total`, and every byte of the
old buffer outside the length field (offsets 4..8) and the `current` field
(offsets 16..20) are unchanged. -/
theorem C8_add_frame_effect (s f : Msg)
    (h20s : 20 ≤ s.length)
    (hLf : mbim_message_get_message_length f = f.length)
    (h20f : 20 ≤ mbim_message_get_message_length f)
    (hsum : mbim_message_get_message_length s +
      (mbim_message_get_message_length f - 20) < U32)
    (hadd : (_mbim_message_fragment_collector_add s f).1 = none) :
    (_mbim_message_fragment_collector_add s f).2.length =
        s.length + (mbim_message_get_message_length f - 20) ∧
    (_mbim_message_fragment_collector_add s f).2.drop s.length =
        fragmentPayload f ∧
    mbim_message_get_message_length (_mbim_message_fragment_collector_add s f).2 =
        mbim_message_get_message_length s +
          (mbim_message_get_message_length f - 20) ∧
    _mbim_message_fragment_get_current (_mbim_message_fragment_collector_add s f).2 =
        _mbim_message_fragment_get_current f ∧
    mbim_message_get_message_type (_mbim_message_fragment_collector_add s f).2 =
        mbim_message_get_message_type s ∧
    mbim_message_get_transaction_id (_mbim_message_fragment_collector_add s f).2 =
        mbim_message_get_transaction_id s ∧
    _mbim_message_fragment_get_total (_mbim_message_fragment_collector_add s f).2 =
        _mbim_message_fragment_get_total s ∧
    (∀ i, i < s.length → (i < 4 ∨ 8 ≤ i) → (i < 16 ∨ 20 ≤ i) →
      (_mbim_message_fragment_collector_add s f).2.getD i 0 = s.getD i 0) := by
  have hplen : fragmentPayloadLen f = mbim_message_get_message_length f - 20 :=
    fragmentPayloadLen_eq f h20f
  have hpl : (fragmentPayload f).length = mbim_message_get_message_length f - 20 :=
    fragmentPayload_length f h20f hLf
  unfold _mbim_message_fragment_collector_add at *
  by_cases hc : _mbim_message_fragment_get_current s ≠
      usub (_mbim_message_fragment_get_current f) 1
  · rw [if_pos hc] at hadd
    simp at hadd
  · rw [if_neg hc]
    simp only
    by_cases hz : fragmentPayloadLen f ≠ 0
    · rw [if_pos hz]
      have hlap : (s ++ fragmentPayload f).length =
          s.length + (mbim_message_get_message_length f - 20) := by
        rw [List.length_append, hpl]
      refine ⟨?_, ?_, ?_, ?_, ?_, ?_, ?_, ?_⟩
      · rw [length_copyBytes4, length_writeLE32, hlap]
      · rw [drop_copyBytes4 _ _ _ _ _ (by omega),
          drop_writeLE32 _ _ _ _ (by omega)]
        rw [List.drop_left]
      · show readLE32 _ 4 = _
        rw [readLE32_copyBytes4_ne _ _ _ _ _ (by omega)]
        rw [readLE32_writeLE32_eq _ _ _ (by rw [List.length_append]; omega)]
        show (readLE32 (s ++ fragmentPayload f) 4 + fragmentPayloadLen f) % U32 = _
        rw [readLE32_append_left _ _ _ (by omega), hplen]
        exact Nat.mod_eq_of_lt hsum
      · show readLE32 _ 16 = readLE32 f 16
        rw [readLE32_copyBytes4_eq _ _ (by rw [length_writeLE32, hlap]; omega)]
      · show readLE32 _ 0 = readLE32 s 0
        rw [readLE32_copyBytes4_ne _ _ _ _ _ (by omega),
          readLE32_writeLE32_ne _ _ _ _ (by omega),
          readLE32_append_left _ _ _ (by omega)]
      · show readLE32 _ 8 = readLE32 s 8
        rw [readLE32_copyBytes4_ne _ _ _ _ _ (by omega),
          readLE32_writeLE32_ne _ _ _ _ (by omega),
          readLE32_append_left _ _ _ (by omega)]
      · show readLE32 _ 12 = readLE32 s 12
        rw [readLE32_copyBytes4_ne _ _ _ _ _ (by omega),
          readLE32_writeLE32_ne _ _ _ _ (by omega),
          readLE32_append_left _ _ _ (by omega)]
      · intro i hi h48 h1620
        rw [getD_copyBytes4_ne _ _ _ _ _ (by omega),
          getD_writeLE32_ne _ _ _ _ (by omega),
          List.getD_append _ _ _ _ (by omega)]
    · rw [if_neg hz]
      have hz0 : fragmentPayloadLen f = 0 := by omega
      have hpay : fragmentPayload f = [] := by
        unfold fragmentPayload
        rw [hz0]
        exact List.take_zero _
      refine ⟨?_, ?_, ?_, ?_, ?_, ?_, ?_, ?_⟩
      · rw [length_copyBytes4]
        omega
      · rw [drop_copyBytes4 _ _ _ _ _ (by omega), hpay, List.drop_length]
      · show readLE32 _ 4 = _
        rw [readLE32_copyBytes4_ne _ _ _ _ _ (by omega)]
        unfold mbim_message_get_message_length at *
        omega
      · show readLE32 _ 16 = readLE32 f 16
        rw [readLE32_copyBytes4_eq _ _ (by omega)]
      · show readLE32 _ 0 = readLE32 s 0
        rw [readLE32_copyBytes4_ne _ _ _ _ _ (by omega)]
      · show readLE32 _ 8 = readLE32 s 8
        rw [readLE32_copyBytes4_ne _ _ _ _ _ (by omega)]
      · show readLE32 _ 12 = readLE32 s 12
        rw [readLE32_copyBytes4_ne _ _ _ _ _ (by omega)]
      · intro i hi h48 h1620
        rw [getD_copyBytes4_ne _ _ _ _ _ (by omega)]

/-- C8 witness: a successful concrete `add` (fragment 1 of 2, one payload
byte) appends that byte, bumps the length field from 20 to 21, sets
`current := 1` and leaves everything else unchanged. -/
theorem C8_witness :
    (_mbim_message_fragment_collector_add
      [3, 0, 0, 0, 20, 0, 0, 0, 9, 0, 0, 0, 2, 0, 0, 0, 0, 0, 0, 0]
      [3, 0, 0, 0, 21, 0, 0, 0, 9, 0, 0, 0, 2, 0, 0, 0, 1, 0, 0, 0, 5]).2.length =
      20 + 1 ∧
    (_mbim_message_fragment_collector_add
      [3, 0, 0, 0, 20, 0, 0, 0, 9, 0, 0, 0, 2, 0, 0, 0, 0, 0, 0, 0]
      [3, 0, 0, 0, 21, 0, 0, 0, 9, 0, 0, 0, 2, 0, 0, 0, 1, 0, 0, 0, 5]).2.drop 20 =
      fragmentPayload [3, 0, 0, 0, 21, 0, 0, 0, 9, 0, 0, 0, 2, 0, 0, 0, 1, 0, 0, 0, 5] ∧
    mbim_message_get_message_length
      (_mbim_message_fragment_collector_add
        [3, 0, 0, 0, 20, 0, 0, 0, 9, 0, 0, 0, 2, 0, 0, 0, 0, 0, 0, 0]
        [3, 0, 0, 0, 21, 0, 0, 0, 9, 0, 0, 0, 2, 0, 0, 0, 1, 0, 0, 0, 5]).2 = 20 + 1 := by
  have h := C8_add_frame_effect
    [3, 0, 0, 0, 20, 0, 0, 0, 9, 0, 0, 0, 2, 0, 0, 0, 0, 0, 0, 0]
    [3, 0, 0, 0, 21, 0, 0, 0, 9, 0, 0, 0, 2, 0, 0, 0, 1, 0, 0, 0, 5]
    (by decide) (by decide) (by decide) (by decide) rfl
  exact ⟨h.1, h.2.1, h.2.2.1⟩

end Mbim

namespace Mbim

theorem ceil_div_eq (P F : Nat) (hF : 0 < F) :
    P / F + (if P % F ≠ 0 then 1 else 0) = (P + F - 1) / F := by
  have h0 : F * (P / F) + P % F = P := Nat.div_add_mod P F
  have hr : P % F < F := Nat.mod_lt _ hF
  by_cases hz : P % F = 0
  · simp only [hz, ne_eq, not_true_eq_false, if_false, Nat.add_zero]
    have he : P + F - 1 = (F - 1) + F * (P / F) := by omega
    rw [he, Nat.add_mul_div_left _ _ hF,
      Nat.div_eq_of_lt (show F - 1 < F by omega)]
    omega
  · simp only [hz, ne_eq, not_false_eq_true, if_true]
    have hms : F * (P / F + 1) = F * (P / F) + F := Nat.mul_succ F (P / F)
    have he : P + F - 1 = (P % F - 1) + F * (P / F + 1) := by omega
    rw [he, Nat.add_mul_div_left _ _ hF,
      Nat.div_eq_of_lt (show P % F - 1 < F by omega)]
    omega

theorem ceil_bounds (P F : Nat) (hF : 0 < F) (hP : 0 < P) :
    P ≤ (P / F + (if P % F ≠ 0 then 1 else 0)) * F ∧
    (P / F + (if P % F ≠ 0 then 1 else 0) - 1) * F < P ∧
    1 ≤ P / F + (if P % F ≠ 0 then 1 else 0) ∧
    P / F + (if P % F ≠ 0 then 1 else 0) ≤ P := by
  have hqP : P / F ≤ P := Nat.div_le_self _ _
  obtain ⟨q, r, hqr, hrF, hq, hrm⟩ :
      ∃ q r, F * q + r = P ∧ r < F ∧ q = P / F ∧ r = P % F :=
    ⟨_, _, Nat.div_add_mod P F, Nat.mod_lt _ hF, rfl, rfl⟩
  rw [← hq, ← hrm]
  rw [← hq] at hqP
  have e1 : q * F = F * q := Nat.mul_comm _ _
  have e2 : (q + 1) * F = q * F + F := Nat.succ_mul _ _
  have e4 : (q + 1 - 1) * F = q * F := by rw [Nat.add_sub_cancel]
  have e5 : q ≤ F * q := Nat.le_mul_of_pos_left q hF
  by_cases hz : r = 0
  · simp only [hz, ne_eq, not_true_eq_false, if_false, Nat.add_zero]
    have hq1 : 1 ≤ q := by
      by_contra hcon
      have hq0 : q = 0 := by omega
      subst hq0
      simp at hqr
      omega
    have e3 : (q - 1) * F = q * F - 1 * F := Nat.sub_mul _ _ _
    have e3b : 1 * F = F := Nat.one_mul F
    refine ⟨by omega, by omega, hq1, hqP⟩
  · simp only [hz, ne_eq, not_false_eq_true, if_true]
    refine ⟨by omega, by omega, by omega, by omega⟩

theorem split_eq (m : Msg) (S : Nat) (hS : 20 < S)
    (hSL : S < mbim_message_get_message_length m) :
    _mbim_message_split_fragments m S = some (splitLoop
      (mbim_message_get_message_type m) (mbim_message_get_transaction_id m)
      ((mbim_message_get_message_length m - 20) / (S - 20) +
        (if (mbim_message_get_message_length m - 20) % (S - 20) ≠ 0 then 1 else 0))
      (S - 20)
      ((mbim_message_get_message_length m - 20) / (S - 20) +
        (if (mbim_message_get_message_length m - 20) % (S - 20) ≠ 0 then 1 else 0))
      0 0 (mbim_message_get_message_length m - 20)) := by
  have hLU : mbim_message_get_message_length m < U32 := readLE32_lt m 4
  have hP : usub (mbim_message_get_message_length m) (headerSize + fragmentHeaderSize) =
      mbim_message_get_message_length m - 20 := by
    show usub _ 20 = _
    exact usub_eq_sub _ _ (by omega) hLU
  have hF : usub S (headerSize + fragmentHeaderSize) = S - 20 := by
    show usub _ 20 = _
    exact usub_eq_sub _ _ (by omega) (by omega)
  have hNle := (ceil_bounds (mbim_message_get_message_length m - 20) (S - 20)
    (by omega) (by omega)).2.2.2
  unfold _mbim_message_split_fragments
  rw [if_neg (by omega)]
  simp only [hP, hF]
  rw [Nat.mod_eq_of_lt (by omega)]

end Mbim

namespace Mbim

/-- C2: `split` returns no descriptors exactly when the whole message fits in
one fragment; otherwise, with `H = 20`, `P = message_length − H`,
`F = max_fragment_size − H > 0`, it returns `ceil(P/F)` descriptors where
descriptor `i` points at offset `i·F` of the fragment-payload region, carries
`min(F, P − i·F)` bytes, has `header.length = H +` its slice length, copies
`type`/`transaction_id`, and stores `total = N`, `current = i`; the slice
lengths sum to `P`.  A 200-byte-payload message split at 64 gives fragments of
payload lengths 44, 44, 44, 44, 24 with header lengths 64, 64, 64, 64, 44. -/
theorem C2_split_shape :
    (∀ m S, _mbim_message_split_fragments m S = none ↔
      mbim_message_get_message_length m ≤ S) ∧
    (∀ m S, 20 < S → S < mbim_message_get_message_length m →
      ∃ fs, _mbim_message_split_fragments m S = some fs ∧
        fs.length = ((mbim_message_get_message_length m - 20) + (S - 20) - 1) /
          (S - 20) ∧
        (∀ i, i < fs.length →
          fs[i]? = some
            { h_type := mbim_message_get_message_type m,
              h_length := 20 + min (S - 20)
                ((mbim_message_get_message_length m - 20) - i * (S - 20)),
              h_transaction_id := mbim_message_get_transaction_id m,
              fh_total := ((mbim_message_get_message_length m - 20) + (S - 20) - 1) /
                (S - 20),
              fh_current := i,
              data_offset := i * (S - 20),
              data_length := min (S - 20)
                ((mbim_message_get_message_length m - 20) - i * (S - 20)) }) ∧
        (fs.map FragmentInfo.data_length).sum =
          mbim_message_get_message_length m - 20) ∧
    ((_mbim_message_split_fragments
        (e32 3 ++ e32 220 ++ e32 5 ++ e32 1 ++ e32 0 ++ List.replicate 200 0) 64).map
      (List.map FragmentInfo.data_length) = some [44, 44, 44, 44, 24] ∧
     (_mbim_message_split_fragments
        (e32 3 ++ e32 220 ++ e32 5 ++ e32 1 ++ e32 0 ++ List.replicate 200 0) 64).map
      (List.map FragmentInfo.h_length) = some [64, 64, 64, 64, 44]) := by
  refine ⟨?_, ?_, by decide, by decide⟩
  · intro m S
    unfold _mbim_message_split_fragments
    by_cases hc : mbim_message_get_message_length m ≤ S
    · rw [if_pos hc]
      simpa using hc
    · rw [if_neg hc]
      simpa using hc
  · intro m S hS hSL
    have hLU : mbim_message_get_message_length m < U32 := readLE32_lt m 4
    have hF : 0 < S - 20 := by omega
    have hP : 0 < mbim_message_get_message_length m - 20 := by omega
    have hB := ceil_bounds (mbim_message_get_message_length m - 20) (S - 20) hF hP
    refine ⟨_, split_eq m S hS hSL, ?_, ?_, ?_⟩
    · rw [length_splitLoop, ceil_div_eq _ _ hF]
    · intro i hi
      rw [length_splitLoop] at hi
      have helem := splitLoop_getElem (mbim_message_get_message_type m)
        (mbim_message_get_transaction_id m)
        ((mbim_message_get_message_length m - 20) / (S - 20) +
          (if (mbim_message_get_message_length m - 20) % (S - 20) ≠ 0 then 1 else 0))
        (S - 20) hF (by omega)
        ((mbim_message_get_message_length m - 20) / (S - 20) +
          (if (mbim_message_get_message_length m - 20) % (S - 20) ≠ 0 then 1 else 0))
        0 0 (mbim_message_get_message_length m - 20) i hi hB.2.1
      rw [helem]
      rw [ceil_div_eq _ _ hF]
      norm_num
    · exact splitLoop_sum _ _ _ _ _ _ _ _ hB.1

/-- C2 witness: the descriptor-shape part applied to a concrete COMMAND
message of total length 30 split at 25 (`P = 10`, `F = 5`, two fragments). -/
theorem C2_witness :
    ∃ fs, _mbim_message_split_fragments
        (e32 3 ++ e32 30 ++ e32 9 ++ e32 1 ++ e32 0 ++
          [100, 101, 102, 103, 104, 105, 106, 107, 108, 109]) 25 = some fs ∧
      fs.length = (10 + 5 - 1) / 5 ∧
      (∀ i, i < fs.length →
        fs[i]? = some
          { h_type := mbim_message_get_message_type
              (e32 3 ++ e32 30 ++ e32 9 ++ e32 1 ++ e32 0 ++
                [100, 101, 102, 103, 104, 105, 106, 107, 108, 109]),
            h_length := 20 + min 5 (10 - i * 5),
            h_transaction_id := mbim_message_get_transaction_id
              (e32 3 ++ e32 30 ++ e32 9 ++ e32 1 ++ e32 0 ++
                [100, 101, 102, 103, 104, 105, 106, 107, 108, 109]),
            fh_total := (10 + 5 - 1) / 5,
            fh_current := i,
            data_offset := i * 5,
            data_length := min 5 (10 - i * 5) }) ∧
      (fs.map FragmentInfo.data_length).sum = 10 := by
  have h := C2_split_shape.2.1
    (e32 3 ++ e32 30 ++ e32 9 ++ e32 1 ++ e32 0 ++
      [100, 101, 102, 103, 104, 105, 106, 107, 108, 109]) 25
    (by decide) (by decide)
  simpa using h

end Mbim

namespace Mbim

theorem toMsg_mk (m : Msg) (t l x tot cur off len : Nat)
    (hlen : l = (headerSize + fragmentHeaderSize + len) % U32) :
    fragmentInfoToMsg m
      { h_type := t, h_length := l, h_transaction_id := x, fh_total := tot,
        fh_current := cur, data_offset := off, data_length := len } =
      hdrMsg t (20 + len) x tot cur ((m.drop (20 + off)).take len) := by
  subst hlen
  unfold fragmentInfoToMsg hdrMsg fragmentSlice headerSize fragmentHeaderSize
  simp only
  rw [show (12 + 8 + len) % U32 = (20 + len) % U32 by norm_num]
  rw [e32_mod]

/-- C1: for a fragmented-type message `m` (well-formed: bytes, and length field
equal to the buffer size) and any `20 < S < message_length(m)`, `split(m, S)`
yields descriptors whose payload slices concatenate to exactly the
fragment-payload region `m[20..]`; serializing those descriptors and feeding
them through the collector (`init` on fragment 0, `add` on the rest, then
`complete`) succeeds and returns a buffer equal to `raw(m)` except that the
fragment header at offsets 12..20 is normalized to `total = 1, current = 0`. -/
theorem C1_split_join_roundtrip (m : Msg) (S : Nat)
    (hWF : ∀ b ∈ m, b < 256)
    (hfrag : _mbim_message_is_fragment m = true)
    (hS : 20 < S) (hSL : S < mbim_message_get_message_length m)
    (hL : mbim_message_get_message_length m = m.length) :
    ∃ f0 rest, _mbim_message_split_fragments m S = some (f0 :: rest) ∧
      ((f0 :: rest).map (fragmentSlice m)).flatten = m.drop 20 ∧
      _mbim_message_fragment_collector_init (fragmentInfoToMsg m f0) =
        .ok (fragmentInfoToMsg m f0) ∧
      ∃ cN, addAll (fragmentInfoToMsg m f0) (rest.map (fragmentInfoToMsg m)) =
          (none, cN) ∧
        _mbim_message_fragment_collector_complete cN =
          (true, m.take 12 ++ e32 1 ++ e32 0 ++ m.drop 20) := by
  have hLU : mbim_message_get_message_length m < U32 := readLE32_lt m 4
  have hF : 0 < S - 20 := by omega
  have hP0 : 0 < mbim_message_get_message_length m - 20 := by omega
  have hPF : S - 20 < mbim_message_get_message_length m - 20 := by omega
  have hB := ceil_bounds (mbim_message_get_message_length m - 20) (S - 20) hF hP0
  have hm20 : m.length = 20 + (mbim_message_get_message_length m - 20) := by omega
  have h1N := hB.2.2.1
  obtain ⟨k, hk⟩ : ∃ k, (mbim_message_get_message_length m - 20) / (S - 20) +
      (if (mbim_message_get_message_length m - 20) % (S - 20) ≠ 0 then 1
       else 0) = k + 1 :=
    ⟨(mbim_message_get_message_length m - 20) / (S - 20) +
      (if (mbim_message_get_message_length m - 20) % (S - 20) ≠ 0 then 1
       else 0) - 1, by omega⟩
  have hsplit := split_eq m S hS hSL
  rw [hk] at hsplit
  have hstep : splitLoop (mbim_message_get_message_type m)
      (mbim_message_get_transaction_id m) (k + 1) (S - 20) (k + 1) 0 0
      (mbim_message_get_message_length m - 20) =
      { h_type := mbim_message_get_message_type m,
        h_length := (headerSize + fragmentHeaderSize + (S - 20)) % U32,
        h_transaction_id := mbim_message_get_transaction_id m,
        fh_total := k + 1, fh_current := 0, data_offset := 0,
        data_length := S - 20 } ::
      splitLoop (mbim_message_get_message_type m)
        (mbim_message_get_transaction_id m) (k + 1) (S - 20) k 1 (S - 20)
        ((mbim_message_get_message_length m - 20) - (S - 20)) := by
    simp [splitLoop, hPF]
  rw [hstep] at hsplit
  refine ⟨_, _, hsplit, ?_, ?_, ?_⟩
  · rw [← hstep]
    have hj := splitLoop_join m (mbim_message_get_message_type m)
      (mbim_message_get_transaction_id m) (k + 1) (S - 20) (k + 1) 0
      (mbim_message_get_message_length m - 20) 0 (by rw [← hk]; exact hB.1)
      (by omega)
    rw [hj]
    have hdl : (m.drop (20 + 0)).length = mbim_message_get_message_length m - 20 := by
      rw [List.length_drop]
      omega
    exact take_all_of_length _ _ hdl
  · rw [toMsg_mk m _ _ _ _ _ _ _ rfl]
    unfold _mbim_message_fragment_collector_init
    rw [current_hdrMsg]
    rw [if_neg (by simp)]
    rw [dup_hdrMsg]
    rw [Nat.mod_eq_of_lt (by omega)]
    rw [List.length_take, List.length_drop]
    omega
  · rw [toMsg_mk m _ _ _ _ _ _ _ rfl]
    have hcoll := splitLoop_collect m (mbim_message_get_message_type m)
      (mbim_message_get_transaction_id m) (k + 1) (S - 20)
      (mbim_message_get_message_length m - 20) (by omega) hm20 (by omega)
      k 0 (S - 20) ((mbim_message_get_message_length m - 20) - (S - 20))
      (by omega)
      (by
        have hsm : (k + 1) * (S - 20) = k * (S - 20) + (S - 20) :=
          Nat.succ_mul _ _
        have hle := hB.1
        rw [hk] at hle
        omega)
      (by
        have := hB.2.2.2
        rw [hk] at this
        omega)
    rw [show (0 : Nat) + 1 = 1 from rfl] at hcoll
    rw [Nat.zero_add] at hcoll
    rw [show 20 + (S - 20) + ((mbim_message_get_message_length m - 20) - (S - 20)) =
      20 + (mbim_message_get_message_length m - 20) by omega] at hcoll
    rw [show (S - 20) + ((mbim_message_get_message_length m - 20) - (S - 20)) =
      mbim_message_get_message_length m - 20 by omega] at hcoll
    have hdl20 : (m.drop 20).length = mbim_message_get_message_length m - 20 := by
      rw [List.length_drop]
      omega
    rw [take_all_of_length _ _ hdl20] at hcoll
    have hkU : k < U32 := by
      have := hB.2.2.2
      rw [hk] at this
      omega
    refine ⟨hdrMsg (mbim_message_get_message_type m)
      (20 + (mbim_message_get_message_length m - 20))
      (mbim_message_get_transaction_id m) (k + 1) k (m.drop 20), ?_, ?_⟩
    · rw [show (20 : Nat) + 0 = 20 from rfl]
      exact hcoll
    · have hcN : _mbim_message_fragment_collector_complete
          (hdrMsg (mbim_message_get_message_type m)
            (20 + (mbim_message_get_message_length m - 20))
            (mbim_message_get_transaction_id m) (k + 1) k (m.drop 20)) =
          (true, hdrMsg (mbim_message_get_message_type m)
            (20 + (mbim_message_get_message_length m - 20))
            (mbim_message_get_transaction_id m) 1 0 (m.drop 20)) := by
        unfold _mbim_message_fragment_collector_complete
        rw [current_hdrMsg, total_hdrMsg]
        rw [Nat.mod_eq_of_lt hkU, Nat.mod_eq_of_lt (by omega)]
        rw [usub_eq_sub _ _ (by omega) (by omega)]
        rw [if_neg (by omega)]
        rw [writeLE32_hdrMsg_current, writeLE32_hdrMsg_total]
      rw [hcN]
      rw [take12_eq m hWF (by omega)]
      have hL4 : e32 (readLE32 m 4) =
          e32 (20 + (mbim_message_get_message_length m - 20)) := by
        have : readLE32 m 4 = 20 + (mbim_message_get_message_length m - 20) := by
          show mbim_message_get_message_length m = _
          omega
        rw [this]
      rw [hL4]
      unfold hdrMsg mbim_message_get_message_type mbim_message_get_transaction_id
      simp [List.append_assoc]

end Mbim

namespace Mbim

/-- C1 witness: the round trip at a concrete COMMAND message of length 30
(10 payload bytes) split at `S = 25`. -/
theorem C1_witness :
    ∃ f0 rest, _mbim_message_split_fragments
        (e32 3 ++ e32 30 ++ e32 9 ++ e32 1 ++ e32 0 ++
          [100, 101, 102, 103, 104, 105, 106, 107, 108, 109]) 25 =
        some (f0 :: rest) ∧
      ((f0 :: rest).map (fragmentSlice
        (e32 3 ++ e32 30 ++ e32 9 ++ e32 1 ++ e32 0 ++
          [100, 101, 102, 103, 104, 105, 106, 107, 108, 109]))).flatten =
        (e32 3 ++ e32 30 ++ e32 9 ++ e32 1 ++ e32 0 ++
          [100, 101, 102, 103, 104, 105, 106, 107, 108, 109]).drop 20 ∧
      _mbim_message_fragment_collector_init (fragmentInfoToMsg
        (e32 3 ++ e32 30 ++ e32 9 ++ e32 1 ++ e32 0 ++
          [100, 101, 102, 103, 104, 105, 106, 107, 108, 109]) f0) =
        .ok (fragmentInfoToMsg
          (e32 3 ++ e32 30 ++ e32 9 ++ e32 1 ++ e32 0 ++
            [100, 101, 102, 103, 104, 105, 106, 107, 108, 109]) f0) ∧
      ∃ cN, addAll (fragmentInfoToMsg
          (e32 3 ++ e32 30 ++ e32 9 ++ e32 1 ++ e32 0 ++
            [100, 101, 102, 103, 104, 105, 106, 107, 108, 109]) f0)
          (rest.map (fragmentInfoToMsg
            (e32 3 ++ e32 30 ++ e32 9 ++ e32 1 ++ e32 0 ++
              [100, 101, 102, 103, 104, 105, 106, 107, 108, 109]))) =
          (none, cN) ∧
        _mbim_message_fragment_collector_complete cN =
          (true, (e32 3 ++ e32 30 ++ e32 9 ++ e32 1 ++ e32 0 ++
              [100, 101, 102, 103, 104, 105, 106, 107, 108, 109]).take 12 ++
            e32 1 ++ e32 0 ++
            (e32 3 ++ e32 30 ++ e32 9 ++ e32 1 ++ e32 0 ++
              [100, 101, 102, 103, 104, 105, 106, 107, 108, 109]).drop 20) :=
  C1_split_join_roundtrip
    (e32 3 ++ e32 30 ++ e32 9 ++ e32 1 ++ e32 0 ++
      [100, 101, 102, 103, 104, 105, 106, 107, 108, 109]) 25
    (by decide) (by decide) (by decide) (by decide) (by decide)

end Mbim
